import Mathlib

/-!
CHOKe queue disc: a shallow embedding

A Lean model of `src/traffic-control/model/choke-queue-disc.cc` and
`src/network/utils/drop-from-queue.h`, followed by theorems about it.

Conventions of the embedding:

* C++ `double` values are exact rationals (`ℚ`); `pow (x, m)` is `x ^ m`.
  Rounding is not modelled: a statement that rounding could falsify (a bound
  met with equality, the floor of a product) is either phrased so that
  monotone rounding preserves it, or restricted to values a `double` holds
  exactly (`ExactDouble`), where the source computes without error.
* `uint32_t` values are natural numbers; where the source does arithmetic on
  them that can wrap, the model reduces modulo `2 ^ 32`.
* Member variables keep their source names (`m_qAvg`, `m_count`, ...).
* The two random variables `m_rnd` and `m_uv` are external: the value each
  would return is an argument of `DoEnqueue`, and the state counts how many
  values have been drawn from each stream.
-/

namespace Choke

/-! ## Data model -/

/-- The `QueueDiscMode` enumeration: the unit in which occupancy is read. -/
inductive QueueDiscMode where
  | QUEUE_DISC_MODE_BYTES
  | QUEUE_DISC_MODE_PACKETS
  deriving DecidableEq, Repr

/-- Modelled from the spec: the reason codes are declared in
`choke-queue-disc.h`, which is not among the source files; section 6 of the
spec lists the five codes carried by disposition notifications. -/
inductive Reason where
  | MATCHED_DROP
  | FORCED_DROP
  | FORCED_MARK
  | UNFORCED_DROP
  | UNFORCED_MARK
  deriving DecidableEq, Repr

/-- The local `dropType` of `DoEnqueue` (`DTYPE_NONE`, `DTYPE_FORCED`,
`DTYPE_UNFORCED`). -/
inductive DropType where
  | DTYPE_NONE
  | DTYPE_FORCED
  | DTYPE_UNFORCED
  deriving DecidableEq, Repr

/-- A `QueueDiscItem` as the engine sees it: `GetSize ()`, the value
`Classify` returns for it, and whether `Mark` can succeed on it. The `uid`
tells apart packets that agree on everything else. -/
structure QueueDiscItem where
  uid : Nat
  size : Nat
  classify : Int
  markable : Bool
  deriving DecidableEq, Repr

/-- A notification emitted by the engine: `DropBeforeEnqueue (item, reason)`
or a successful `Mark (item, reason)`. -/
inductive Notification where
  | dropBeforeEnqueue (item : QueueDiscItem) (reason : Reason)
  | mark (item : QueueDiscItem) (reason : Reason)
  deriving DecidableEq, Repr

/-! ## The packet store (`DropFromQueue`) -/

/-- Unit of the store's capacity (`MaxSize`): a packet count or a byte total. -/
inductive QueueSizeUnit where
  | PACKETS
  | BYTES
  deriving DecidableEq, Repr

/-- A `DropFromQueue<QueueDiscItem>`: the packets from head to tail, the
capacity, and the packets the store has rejected through its drop callback.
An iterator into the store is the offset from `begin ()`. -/
structure DropFromQueue where
  packets : List QueueDiscItem
  maxSizeUnit : QueueSizeUnit
  maxSize : Nat
  dropped : List QueueDiscItem
  deriving DecidableEq, Repr

namespace DropFromQueue

/-- Embedding of `GetNPackets ()`: the number of packets held. -/
def GetNPackets (q : DropFromQueue) : Nat := q.packets.length

/-- Embedding of `GetNBytes ()`: the total size of the packets held. -/
def GetNBytes (q : DropFromQueue) : Nat := (q.packets.map QueueDiscItem.size).sum

/-- Embedding of `IsEmpty ()`. -/
def IsEmpty (q : DropFromQueue) : Bool := q.GetNPackets == 0

/-- The iterator `begin ()`. -/
def begin (_q : DropFromQueue) : Nat := 0

/-- The iterator `end ()`. -/
def «end» (q : DropFromQueue) : Nat := q.packets.length

/-- The loop `for (uint32_t i = 0; i < pos; i++) ptr++;` of `PeekAt` and
`RemoveFrom`, started at iterator `ptr` with `pos` rounds left. -/
def advance : Nat → Nat → Nat
  | 0, ptr => ptr
  | n + 1, ptr => advance n (ptr + 1)

/-- Modelled from the spec: `Queue<Item>::DoPeek (iterator)` is defined in
`ns3/queue.h`, which is not among the source files. Section 4.1: read-only
access to the packet at an offset from the head; none if the offset is not
below the current size. -/
def DoPeek (q : DropFromQueue) (ptr : Nat) : Option QueueDiscItem := q.packets[ptr]?

/-- Modelled from the spec: `Queue<Item>::DoDequeue (iterator)` is defined in
`ns3/queue.h`, which is not among the source files. Section 4.1: removes and
returns the packet at the offset, the packets behind it move forward by one
position; fails (none, store untouched) if the offset is out of range. -/
def DoDequeue (q : DropFromQueue) (ptr : Nat) : Option QueueDiscItem × DropFromQueue :=
  match q.packets[ptr]? with
  | none => (none, q)
  | some item => (some item, { q with packets := q.packets.eraseIdx ptr })

/-- Modelled from the spec: `Queue<Item>::DoEnqueue (iterator, item)` is
defined in `ns3/queue.h`, which is not among the source files. Section 4.1:
the packet is stored (at `end ()`: appended) unless the capacity, counted in
packets or in bytes, would be exceeded; on overflow the packet is rejected,
handed to the drop callback, and the result is false. -/
def DoEnqueue (q : DropFromQueue) (ptr : Nat) (item : QueueDiscItem) : Bool × DropFromQueue :=
  let overflow : Bool :=
    match q.maxSizeUnit with
    | QueueSizeUnit.PACKETS => decide (q.GetNPackets + 1 > q.maxSize)
    | QueueSizeUnit.BYTES => decide (q.GetNBytes + item.size > q.maxSize)
  if overflow then (false, { q with dropped := q.dropped ++ [item] })
  else (true, { q with packets := q.packets.take ptr ++ item :: q.packets.drop ptr })

/-- Embedding of `DropFromQueue::Enqueue (item)`. -/
def Enqueue (q : DropFromQueue) (item : QueueDiscItem) : Bool × DropFromQueue :=
  q.DoEnqueue q.«end» item

/-- Embedding of `DropFromQueue::Dequeue ()`. -/
def Dequeue (q : DropFromQueue) : Option QueueDiscItem × DropFromQueue :=
  q.DoDequeue q.begin

/-- Embedding of `DropFromQueue::Peek ()`. -/
def Peek (q : DropFromQueue) : Option QueueDiscItem :=
  q.DoPeek q.begin

/-- Embedding of `DropFromQueue::PeekAt (pos)`. -/
def PeekAt (q : DropFromQueue) (pos : Nat) : Option QueueDiscItem :=
  let ptr := advance pos q.begin
  q.DoPeek ptr

/-- Embedding of `DropFromQueue::RemoveFrom (pos)`. -/
def RemoveFrom (q : DropFromQueue) (pos : Nat) : Option QueueDiscItem × DropFromQueue :=
  let ptr := advance pos q.begin
  q.DoDequeue ptr

end DropFromQueue

/-! ## Probability arithmetic (pure functions of the engine) -/

/-- Embedding of `ChokeQueueDisc::Estimator (nQueued, m, qAvg, qW)`, in exact
arithmetic: the source rounds `1.0 - qW`, the power, both products and the
sum to `double`. -/
def Estimator (nQueued m : Nat) (qAvg qW : ℚ) : ℚ :=
  let newAve := qAvg * (1 - qW) ^ m
  let newAve := newAve + qW * (nQueued : ℚ)
  newAve

/-- Embedding of `ChokeQueueDisc::CalculatePNew (qAvg, maxTh, vA, vB, maxP)`,
in exact arithmetic: the source rounds the product `vA * qAvg`, the sum with
`vB` and the product with `maxP` to `double`. -/
def CalculatePNew (qAvg maxTh vA vB maxP : ℚ) : ℚ :=
  let p : ℚ := if qAvg ≥ maxTh then 1 else (vA * qAvg + vB) * maxP
  if p > 1 then 1 else p

/-- Embedding of `ChokeQueueDisc::ModifyP (p, count, countBytes, meanPktSize, isWait, size)`;
the first argument is the value of `GetMode ()`. The quotient
`countBytes / meanPktSize` is the integer division of the source, which is
undefined for `meanPktSize = 0` (here it is 0); the statements about bytes
mode assume `meanPktSize > 0`. -/
def ModifyP (mode : QueueDiscMode) (p : ℚ) (count countBytes meanPktSize : Nat)
    (isWait : Bool) (size : Nat) : ℚ :=
  let count1 : ℚ :=
    if mode = QueueDiscMode.QUEUE_DISC_MODE_BYTES then ((countBytes / meanPktSize : Nat) : ℚ)
    else (count : ℚ)
  let p : ℚ :=
    if isWait then
      if count1 * p < 1 then 0
      else if count1 * p < 2 then p / (2 - count1 * p)
      else 1
    else
      if count1 * p < 1 then p / (1 - count1 * p)
      else 1
  let p : ℚ :=
    if mode = QueueDiscMode.QUEUE_DISC_MODE_BYTES ∧ p < 1 then (p * (size : ℚ)) / (meanPktSize : ℚ)
    else p
  if p > 1 then 1 else p

/-- The wait / no-wait compensation step of `ModifyP`, as a function of the
count `count1` the source compares with. -/
def compensate (isWait : Bool) (count1 p : ℚ) : ℚ :=
  if isWait then
    if count1 * p < 1 then 0
    else if count1 * p < 2 then p / (2 - count1 * p)
    else 1
  else
    if count1 * p < 1 then p / (1 - count1 * p)
    else 1

/-- The last two steps of `ModifyP`: the byte-mode scaling of a probability
below 1 and the final clamp at 1. -/
def scaleAndClamp (mode : QueueDiscMode) (p : ℚ) (meanPktSize size : Nat) : ℚ :=
  let p : ℚ :=
    if mode = QueueDiscMode.QUEUE_DISC_MODE_BYTES ∧ p < 1 then (p * (size : ℚ)) / (meanPktSize : ℚ)
    else p
  if p > 1 then 1 else p

/-- The count `count1` that `ModifyP` works with: `count` in packets mode,
the integer quotient `countBytes / meanPktSize` in bytes mode. -/
def count1 (mode : QueueDiscMode) (count countBytes meanPktSize : Nat) : ℚ :=
  if mode = QueueDiscMode.QUEUE_DISC_MODE_BYTES then ((countBytes / meanPktSize : Nat) : ℚ)
  else (count : ℚ)

/-- A rational number that a `double` holds exactly: `k * 2 ^ e` with
`|k| < 2 ^ 53` and `-1074 ≤ e ≤ 971`. IEEE arithmetic returns the exact
result of an operation whenever that result is such a number; the theorems
that compare a numeric result with a bound it can miss by rounding are
stated for operands and results of this kind. -/
def ExactDouble (x : ℚ) : Prop :=
  ∃ k e : ℤ, |k| < 2 ^ 53 ∧ -1074 ≤ e ∧ e ≤ 971 ∧ x = (k : ℚ) * (2 : ℚ) ^ e

/-! ## The drop decision engine (`ChokeQueueDisc`) -/

/-- The state of a `ChokeQueueDisc`: its attributes, the constants derived
by `InitializeParams`, the estimator and counter variables, the internal
queue, the notifications emitted so far, and the number of values drawn so
far from the random variables `m_rnd` (positions) and `m_uv` (probabilities).
Times are in seconds. -/
structure ChokeQueueDisc where
  m_mode : QueueDiscMode
  m_meanPktSize : Nat
  m_isWait : Bool
  m_minTh : ℚ
  m_maxTh : ℚ
  m_queueLimit : Nat
  m_qW : ℚ
  m_lInterm : ℚ
  m_isNs1Compat : Bool
  m_linkBandwidth : Nat
  m_linkDelay : ℚ
  m_useEcn : Bool
  m_useHardDrop : Bool
  m_ptc : ℚ
  m_vA : ℚ
  m_vB : ℚ
  m_curMaxP : ℚ
  m_qAvg : ℚ
  m_count : Nat
  m_countBytes : Nat
  m_old : Bool
  m_idle : Bool
  m_idleTime : ℚ
  m_vProb : ℚ
  m_vProb1 : ℚ
  internalQueue : DropFromQueue
  notifications : List Notification
  rndDraws : Nat
  uvDraws : Nat
  deriving DecidableEq

namespace ChokeQueueDisc

/-- Embedding of `SetMode (mode)`. -/
def SetMode (s : ChokeQueueDisc) (mode : QueueDiscMode) : ChokeQueueDisc :=
  { s with m_mode := mode }

/-- Embedding of `GetMode ()`. -/
def GetMode (s : ChokeQueueDisc) : QueueDiscMode := s.m_mode

/-- Embedding of `SetQueueLimit (lim)`. -/
def SetQueueLimit (s : ChokeQueueDisc) (lim : Nat) : ChokeQueueDisc :=
  { s with m_queueLimit := lim }

/-- Embedding of `SetTh (minTh, maxTh)`; none when `NS_ASSERT (minTh <= maxTh)` fails. -/
def SetTh (s : ChokeQueueDisc) (minTh maxTh : ℚ) : Option ChokeQueueDisc :=
  if minTh ≤ maxTh then some { s with m_minTh := minTh, m_maxTh := maxTh } else none

/-- Embedding of `InitializeParams ()`; none when `NS_ASSERT (m_minTh <= m_maxTh)` fails. -/
def InitializeParams (s : ChokeQueueDisc) : Option ChokeQueueDisc :=
  let m_ptc : ℚ := (s.m_linkBandwidth : ℚ) / (8 * (s.m_meanPktSize : ℚ))
  if s.m_minTh ≤ s.m_maxTh then
    let th_diff : ℚ := s.m_maxTh - s.m_minTh
    let th_diff : ℚ := if th_diff = 0 then 1 else th_diff
    some { s with
      m_ptc := m_ptc
      m_qAvg := 0
      m_count := 0
      m_countBytes := 0
      m_old := false
      m_idle := true
      m_vA := 1 / th_diff
      m_curMaxP := 1 / s.m_lInterm
      m_vB := -s.m_minTh / th_diff
      m_idleTime := 0 }
  else none

/-- Embedding of `DropBeforeEnqueue (item, reason)`: the drop notification. -/
def DropBeforeEnqueue (s : ChokeQueueDisc) (item : QueueDiscItem) (reason : Reason) :
    ChokeQueueDisc :=
  { s with notifications := s.notifications ++ [Notification.dropBeforeEnqueue item reason] }

/-- Modelled from the spec: `QueueDisc::Mark (item, reason)` belongs to the
framework and is not among the source files. Section 4.3: marking tags the
packet instead of dropping it and is reported with its reason code; it fails,
with no notification, if marking is unsupported for this packet. -/
def Mark (s : ChokeQueueDisc) (item : QueueDiscItem) (reason : Reason) :
    Bool × ChokeQueueDisc :=
  if item.markable then
    (true, { s with notifications := s.notifications ++ [Notification.mark item reason] })
  else (false, s)

/-- Embedding of `DropEarly (item, qSize)`; `u` is the value `m_uv->GetValue ()` returns.
True stands for the return value 1 (drop), false for 0. -/
def DropEarly (s : ChokeQueueDisc) (item : QueueDiscItem) (_qSize : Nat) (u : ℚ) :
    Bool × ChokeQueueDisc :=
  let m_vProb1 := CalculatePNew s.m_qAvg s.m_maxTh s.m_vA s.m_vB s.m_curMaxP
  let m_vProb := ModifyP s.GetMode m_vProb1 s.m_count s.m_countBytes s.m_meanPktSize
    s.m_isWait item.size
  let s := { s with m_vProb1 := m_vProb1, m_vProb := m_vProb, uvDraws := s.uvDraws + 1 }
  if u ≤ s.m_vProb then
    (true, { s with m_count := 0, m_countBytes := 0 })
  else (false, s)

/-- The part of `DoEnqueue` after the sampling block: the disposition chosen
in `dropType` is applied and, unless the packet is dropped, it is handed to
the internal queue. -/
def applyDisposition (s : ChokeQueueDisc) (item : QueueDiscItem) (dropType : DropType) :
    Bool × ChokeQueueDisc :=
  let enqueue (s : ChokeQueueDisc) : Bool × ChokeQueueDisc :=
    let r := s.internalQueue.Enqueue item
    (r.1, { s with internalQueue := r.2 })
  match dropType with
  | DropType.DTYPE_UNFORCED =>
    if !s.m_useEcn then (false, s.DropBeforeEnqueue item Reason.UNFORCED_DROP)
    else
      let r := s.Mark item Reason.UNFORCED_MARK
      if !r.1 then (false, r.2.DropBeforeEnqueue item Reason.UNFORCED_DROP)
      else enqueue r.2
  | DropType.DTYPE_FORCED =>
    if s.m_useHardDrop || !s.m_useEcn then
      let s := s.DropBeforeEnqueue item Reason.FORCED_DROP
      (false, if s.m_isNs1Compat then { s with m_count := 0, m_countBytes := 0 } else s)
    else
      let r := s.Mark item Reason.FORCED_MARK
      if !r.1 then
        let s := r.2.DropBeforeEnqueue item Reason.FORCED_DROP
        (false, if s.m_isNs1Compat then { s with m_count := 0, m_countBytes := 0 } else s)
      else enqueue r.2
  | DropType.DTYPE_NONE => enqueue s

/-- The occupancy `nQueued` read at the start of `DoEnqueue`. -/
def nQueued (s : ChokeQueueDisc) : Nat :=
  match s.GetMode with
  | QueueDiscMode.QUEUE_DISC_MODE_BYTES => s.internalQueue.GetNBytes
  | QueueDiscMode.QUEUE_DISC_MODE_PACKETS => s.internalQueue.GetNPackets

/-- The first part of `DoEnqueue`, up to and including the counter
increments: the idle compensation `m`, the update of `m_qAvg`, `m_count++`
and `m_countBytes += item->GetSize ()`. `now` is `Simulator::Now ()`. The
product `m_ptc * seconds` and the average are computed exactly, without the
rounding of the source's `double` arithmetic. -/
def updateAverage (s : ChokeQueueDisc) (item : QueueDiscItem) (now : ℚ) : ChokeQueueDisc :=
  let nQueued := s.nQueued
  let m : Nat := if s.m_idle then (Int.toNat ⌊s.m_ptc * (now - s.m_idleTime)⌋) % 2 ^ 32 else 0
  let s := if s.m_idle then { s with m_idle := false } else s
  let s := { s with m_qAvg := Estimator nQueued ((m + 1) % 2 ^ 32) s.m_qAvg s.m_qW }
  let s := { s with m_count := (s.m_count + 1) % 2 ^ 32 }
  { s with m_countBytes := (s.m_countBytes + item.size) % 2 ^ 32 }

/-- Embedding of `DoEnqueue (item)`. `now` is `Simulator::Now ()`, `randompos` the value
`m_rnd->GetInteger ()` returns when it is called (with `Min = 1` and
`Max = nQueued - 1`), `u` the value `m_uv->GetValue ()` returns when it is
called. The result is none when `PeekAt` finds no packet at `randompos`: the
source then classifies a null pointer. -/
def DoEnqueue (s : ChokeQueueDisc) (item : QueueDiscItem) (now : ℚ) (randompos : Nat) (u : ℚ) :
    Option (Bool × ChokeQueueDisc) :=
  let nQueued := s.nQueued
  let s := s.updateAverage item now
  if s.m_qAvg ≥ s.m_minTh ∧ nQueued > 1 then
    let s := { s with rndDraws := s.rndDraws + 1 }
    match s.internalQueue.PeekAt randompos with
    | none => none
    | some randomitem =>
      let hash := item.classify
      let hashrnd := randomitem.classify
      if hash = hashrnd then
        let s := s.DropBeforeEnqueue item Reason.FORCED_MARK
        let s := { s with internalQueue := (s.internalQueue.RemoveFrom randompos).2 }
        some (false, s)
      else if s.m_qAvg ≥ s.m_maxTh then
        some (s.applyDisposition item DropType.DTYPE_FORCED)
      else if s.m_old = false then
        let s := { s with m_count := 1, m_countBytes := item.size, m_old := true }
        some (s.applyDisposition item DropType.DTYPE_NONE)
      else
        let r := s.DropEarly item nQueued u
        if r.1 then some (r.2.applyDisposition item DropType.DTYPE_UNFORCED)
        else some (r.2.applyDisposition item DropType.DTYPE_NONE)
  else
    let s := { s with m_vProb := 0, m_old := false }
    some (s.applyDisposition item DropType.DTYPE_NONE)

/-- Embedding of `GetQueueSize ()`. -/
def GetQueueSize (s : ChokeQueueDisc) : Nat :=
  match s.GetMode with
  | QueueDiscMode.QUEUE_DISC_MODE_BYTES => s.internalQueue.GetNBytes
  | QueueDiscMode.QUEUE_DISC_MODE_PACKETS => s.internalQueue.GetNPackets

/-- Embedding of `DoDequeue ()`; `now` is `Simulator::Now ()`. -/
def DoDequeue (s : ChokeQueueDisc) (now : ℚ) : Option QueueDiscItem × ChokeQueueDisc :=
  if s.internalQueue.IsEmpty then (none, s)
  else
    let s := { s with m_idle := false }
    let r := s.internalQueue.Dequeue
    let s := { s with internalQueue := r.2 }
    let s := if s.internalQueue.IsEmpty then { s with m_idle := true, m_idleTime := now } else s
    (r.1, s)

/-- Embedding of `DoPeek ()`. -/
def DoPeek (s : ChokeQueueDisc) : Option QueueDiscItem :=
  if s.internalQueue.IsEmpty then none else s.internalQueue.Peek

/-- The second argument `m + 1` that `DoEnqueue` passes to `Estimator`, with
`m` the idle compensation computed just before (0 unless `m_idle` is set);
`now` is `Simulator::Now ()`. The product under the floor is exact here; the
source truncates the `double` product of `m_ptc` and the idle seconds, which
is the same number whenever the idle seconds and the product are numbers a
`double` holds exactly (`ExactDouble`). -/
def estimatorExponent (s : ChokeQueueDisc) (now : ℚ) : Nat :=
  let m : Nat := if s.m_idle then (Int.toNat ⌊s.m_ptc * (now - s.m_idleTime)⌋) % 2 ^ 32 else 0
  (m + 1) % 2 ^ 32

/-- Embedding of `CheckConfig ()`. The framework getters are arguments:
`nQueueDiscClasses`, `nPacketFilters`, the internal queues installed so far
and the value of `GetMaxSize ()` (unit and amount). The result is the return
value and the internal queues afterwards. The two comparisons of the
internal queue with `m_mode` and `m_queueLimit` are commented out in the
source and therefore absent here. -/
def CheckConfig (_s : ChokeQueueDisc) (nQueueDiscClasses nPacketFilters : Nat)
    (internalQueues : List DropFromQueue) (maxSize : QueueSizeUnit × Nat) :
    Bool × List DropFromQueue :=
  if nQueueDiscClasses > 0 then (false, internalQueues)
  else if nPacketFilters < 1 then (false, internalQueues)
  else
    let internalQueues :=
      if internalQueues.length = 0 then
        internalQueues ++
          [{ packets := [], maxSizeUnit := maxSize.1, maxSize := maxSize.2, dropped := [] }]
      else internalQueues
    if internalQueues.length ≠ 1 then (false, internalQueues)
    else (true, internalQueues)

end ChokeQueueDisc

namespace DropFromQueue

/-- Successive `Enqueue` calls for the packets of a list, first to last; none
as soon as the store rejects one. -/
def enqueueAll : DropFromQueue → List QueueDiscItem → Option DropFromQueue
  | q, [] => some q
  | q, p :: ps => if (q.Enqueue p).1 then enqueueAll (q.Enqueue p).2 ps else none

/-- The results of `n` successive `Dequeue` calls, in call order, and the
store after them. -/
def dequeueN : DropFromQueue → Nat → List (Option QueueDiscItem) × DropFromQueue
  | q, 0 => ([], q)
  | q, n + 1 => ((q.Dequeue).1 :: (dequeueN (q.Dequeue).2 n).1, (dequeueN (q.Dequeue).2 n).2)

end DropFromQueue

/-! ## Runs of the engine -/

/-- An event the scheduler delivers to the disc: the arrival of a packet
(with the time and the values the two random variables would return) or a
departure (with the time). -/
inductive Event where
  | arrival (item : QueueDiscItem) (now : ℚ) (randompos : Nat) (u : ℚ)
  | departure (now : ℚ)
  deriving DecidableEq

/-- The state after a sequence of events, each arrival handled by `DoEnqueue`
and each departure by `DoDequeue`; none if some `DoEnqueue` has no result. -/
def run : ChokeQueueDisc → List Event → Option ChokeQueueDisc
  | s, [] => some s
  | s, Event.arrival item now randompos u :: evs =>
    match s.DoEnqueue item now randompos u with
    | none => none
    | some r => run r.2 evs
  | s, Event.departure now :: evs => run (s.DoDequeue now).2 evs

/-! ## Concrete states used in the examples -/

/-- A disc in packets mode with `MinTh = 4`, `MaxTh = 8`, `QW = 1/2`,
`LInterm = 2`, not yet initialised, with an empty internal queue of capacity
25 packets. All its numbers are exact in binary floating point. -/
def exDisc : ChokeQueueDisc where
  m_mode := QueueDiscMode.QUEUE_DISC_MODE_PACKETS
  m_meanPktSize := 500
  m_isWait := true
  m_minTh := 4
  m_maxTh := 8
  m_queueLimit := 25
  m_qW := 1 / 2
  m_lInterm := 2
  m_isNs1Compat := false
  m_linkBandwidth := 1500000
  m_linkDelay := 1 / 50
  m_useEcn := false
  m_useHardDrop := true
  m_ptc := 0
  m_vA := 0
  m_vB := 0
  m_curMaxP := 0
  m_qAvg := 0
  m_count := 0
  m_countBytes := 0
  m_old := false
  m_idle := false
  m_idleTime := 0
  m_vProb := 0
  m_vProb1 := 0
  internalQueue :=
    { packets := [], maxSizeUnit := QueueSizeUnit.PACKETS, maxSize := 25, dropped := [] }
  notifications := []
  rndDraws := 0
  uvDraws := 0

/-- The state `InitializeParams` produces from `exDisc`. -/
def exDiscInit : ChokeQueueDisc :=
  { exDisc with
    m_ptc := 375
    m_idle := true
    m_vA := 1 / 4
    m_vB := -1
    m_curMaxP := 1 / 2 }

/-- Four packets: `pktB` and `pktD` have the same classification key, the
others have keys of their own. -/
def pktA : QueueDiscItem := { uid := 1, size := 500, classify := 3, markable := true }

/-- Second example packet (key 7). -/
def pktB : QueueDiscItem := { uid := 2, size := 500, classify := 7, markable := true }

/-- Third example packet (key 5). -/
def pktC : QueueDiscItem := { uid := 3, size := 500, classify := 5, markable := true }

/-- Fourth example packet (key 7, as `pktB`). -/
def pktD : QueueDiscItem := { uid := 4, size := 500, classify := 7, markable := true }

/-- Fifth example packet (key 9, shared with no other). -/
def pktE : QueueDiscItem := { uid := 5, size := 500, classify := 9, markable := true }

/-- A store of capacity 25 packets holding `pktA`, `pktB`, `pktC`. -/
def exQueue : DropFromQueue :=
  { packets := [pktA, pktB, pktC], maxSizeUnit := QueueSizeUnit.PACKETS, maxSize := 25,
    dropped := [] }

/-- The initialised example disc in the middle of a busy period: three
packets queued, average 8, a drop-eligible cycle in progress. -/
def exBusy : ChokeQueueDisc :=
  { exDiscInit with
    m_qAvg := 8
    m_idle := false
    m_old := true
    m_count := 3
    m_countBytes := 1500
    internalQueue := exQueue }

/-- The example disc with three packets queued and a high average 16. -/
def exHigh : ChokeQueueDisc := { exBusy with m_qAvg := 16 }

/-- The disc `exHigh` with ECN switched on and hard drop switched off. -/
def exHighEcn : ChokeQueueDisc := { exHigh with m_useEcn := true, m_useHardDrop := false }

/-- The example disc with three packets queued and a low average 2. -/
def exLow : ChokeQueueDisc := { exBusy with m_qAvg := 2 }

/-- The disc `exBusy` with seven packets counted since the last drop. -/
def exBusy8 : ChokeQueueDisc := { exBusy with m_count := 7, m_countBytes := 3500 }

/-- The disc `exBusy` before its drop-eligible cycle has started. -/
def exFresh : ChokeQueueDisc := { exBusy with m_old := false }

/-- The initialised example disc with `QueueLimit` set to 1; its internal
queue, as before, has a capacity of 25 packets. -/
def exSmallLimit : ChokeQueueDisc := { exDiscInit with m_queueLimit := 1 }

/-- The initialised example disc in bytes mode, on an empty internal queue
with a capacity of 25000 bytes. -/
def exBytes : ChokeQueueDisc :=
  { exDiscInit with
    m_mode := QueueDiscMode.QUEUE_DISC_MODE_BYTES
    m_queueLimit := 25000
    internalQueue :=
      { packets := [], maxSizeUnit := QueueSizeUnit.BYTES, maxSize := 25000, dropped := [] } }

/-- The disc `exSmallLimit` after `pktA` has arrived at time 0. -/
def exSmallLimit1 : ChokeQueueDisc :=
  { exSmallLimit with
    m_idle := false
    m_count := 1
    m_countBytes := 500
    internalQueue :=
      { packets := [pktA], maxSizeUnit := QueueSizeUnit.PACKETS, maxSize := 25, dropped := [] } }

/-- The disc `exSmallLimit1` after `pktB` has arrived at time 0; the average
has moved from 0 to 1/2. -/
def exSmallLimit2 : ChokeQueueDisc :=
  { exSmallLimit1 with
    m_qAvg := 1 / 2
    m_count := 2
    m_countBytes := 1000
    internalQueue :=
      { packets := [pktA, pktB], maxSizeUnit := QueueSizeUnit.PACKETS, maxSize := 25,
        dropped := [] } }

/-- The disc `exBytes` after `pktA` (500 bytes) has arrived at time 0. -/
def exBytes1 : ChokeQueueDisc :=
  { exBytes with
    m_idle := false
    m_count := 1
    m_countBytes := 500
    internalQueue :=
      { packets := [pktA], maxSizeUnit := QueueSizeUnit.BYTES, maxSize := 25000,
        dropped := [] } }

/-- The initialised example disc after `pktA` has arrived at time 0. -/
def exArrived : ChokeQueueDisc :=
  { exDiscInit with
    m_idle := false
    m_count := 1
    m_countBytes := 500
    internalQueue :=
      { packets := [pktA], maxSizeUnit := QueueSizeUnit.PACKETS, maxSize := 25, dropped := [] } }

/-- The disc `exArrived` after its only packet has departed at time 1: the
store is empty again and the disc is idle since time 1. -/
def exDeparted : ChokeQueueDisc :=
  { exDiscInit with
    m_idle := true
    m_idleTime := 1
    m_count := 1
    m_countBytes := 500 }

/-- Function `InitializeParams` succeeds on `exDisc` and yields `exDiscInit`. -/
theorem exDisc_InitializeParams : exDisc.InitializeParams = some exDiscInit := by
  norm_num [ChokeQueueDisc.InitializeParams, exDisc, exDiscInit]

/-- What `InitializeParams` leaves in the state when it succeeds: the
thresholds are ordered and untouched, and the slope constants are built from
a positive denominator. -/
theorem InitializeParams_constants {s s' : ChokeQueueDisc}
    (h : s.InitializeParams = some s') :
    s.m_minTh ≤ s.m_maxTh ∧ s'.m_minTh = s.m_minTh ∧ s'.m_maxTh = s.m_maxTh ∧
      s'.m_curMaxP = 1 / s.m_lInterm ∧
      ∃ d : ℚ, 0 < d ∧ s'.m_vA = 1 / d ∧ s'.m_vB = -s.m_minTh / d := by
  unfold ChokeQueueDisc.InitializeParams at h
  by_cases hle : s.m_minTh ≤ s.m_maxTh
  · simp only [hle, if_true, Option.some.injEq] at h
    subst h
    refine ⟨hle, rfl, rfl, rfl, ?_⟩
    by_cases hz : s.m_maxTh - s.m_minTh = 0
    · exact ⟨1, one_pos, by simp [hz], by simp [hz]⟩
    · refine ⟨s.m_maxTh - s.m_minTh, ?_, by simp [hz], by simp [hz]⟩
      rcases lt_or_eq_of_le hle with hlt | heq
      · linarith
      · exact absurd (by rw [heq]; ring) hz
  · simp [hle] at h

/-- The linear branch of `CalculatePNew` with the initialised constants is
the distance of the average from `minTh`, scaled by a positive factor. -/
theorem linear_branch_eq (q minTh d l : ℚ) (hd : 0 < d) (hl : 0 < l) :
    (1 / d * q + -minTh / d) * (1 / l) = (q - minTh) * (1 / (d * l)) := by
  field_simp
  ring

/-- Function `CalculatePNew` never exceeds 1, whatever its arguments. -/
theorem CalculatePNew_le_one (qAvg maxTh vA vB maxP : ℚ) :
    CalculatePNew qAvg maxTh vA vB maxP ≤ 1 := by
  unfold CalculatePNew
  simp only
  split_ifs <;> linarith

/-- C5 (as stated, refuted): with `qAvg = 10`, `nQueued = 10` and
`qW = 1/2`, the estimator gives `15/2` for `m = 2`, below the minimum of
`qAvg` and `nQueued`, and `15` for `m = 0`, above their maximum. Every number
involved is exact in `double` arithmetic. -/
theorem Estimator_outside_min_max :
    (0 : ℚ) ≤ 10 ∧ (0 : ℚ) < 1 / 2 ∧ (1 / 2 : ℚ) < 1 ∧
      Estimator 10 2 10 (1 / 2) = 15 / 2 ∧
      Estimator 10 2 10 (1 / 2) < min (10 : ℚ) ((10 : Nat) : ℚ) ∧
      Estimator 10 0 10 (1 / 2) = 15 ∧
      max (10 : ℚ) ((10 : Nat) : ℚ) < Estimator 10 0 10 (1 / 2) := by
  norm_num [Estimator]

/-- C5 (amended): for `qAvg ≥ 0` and a weight in (0,1) the estimator result
is never negative; it lies between `min (qAvg, nQueued)` and
`max (qAvg, nQueued)` whenever `nQueued = 0` (the idle case, the only one in
which `DoEnqueue` passes `m > 1`) or `qAvg = 0`, for every `m`; and for
`m = 1` it lies between them whenever `1 - qW`, the two products and their
sum are numbers a `double` holds exactly. These are the cases in which
rounding cannot carry the result past the bound: with one operand 0 the
result is a single rounded product of a bound and a factor in [0,1], and
with exact operands nothing is rounded. -/
theorem Estimator_range (nQueued m : Nat) (qAvg qW : ℚ)
    (hq : 0 ≤ qAvg) (hw0 : 0 < qW) (hw1 : qW < 1) :
    0 ≤ Estimator nQueued m qAvg qW ∧
      (nQueued = 0 →
        min qAvg (nQueued : ℚ) ≤ Estimator nQueued m qAvg qW ∧
        Estimator nQueued m qAvg qW ≤ max qAvg (nQueued : ℚ)) ∧
      (qAvg = 0 →
        min qAvg (nQueued : ℚ) ≤ Estimator nQueued m qAvg qW ∧
        Estimator nQueued m qAvg qW ≤ max qAvg (nQueued : ℚ)) ∧
      (m = 1 → ExactDouble (1 - qW) → ExactDouble (qAvg * (1 - qW)) →
        ExactDouble (qW * (nQueued : ℚ)) →
        ExactDouble (qAvg * (1 - qW) + qW * (nQueued : ℚ)) →
        min qAvg (nQueued : ℚ) ≤ Estimator nQueued m qAvg qW ∧
        Estimator nQueued m qAvg qW ≤ max qAvg (nQueued : ℚ)) := by
  have hn : (0 : ℚ) ≤ (nQueued : ℚ) := Nat.cast_nonneg nQueued
  have h1w : 0 ≤ 1 - qW := by linarith
  have hp0 : 0 ≤ (1 - qW) ^ m := pow_nonneg h1w m
  have hp1 : (1 - qW) ^ m ≤ 1 := pow_le_one₀ h1w (by linarith)
  have hA : 0 ≤ qAvg * (1 - qW) ^ m := mul_nonneg hq hp0
  have hB : 0 ≤ qW * (nQueued : ℚ) := mul_nonneg hw0.le hn
  refine ⟨?_, ?_, ?_, ?_⟩
  · unfold Estimator
    simp only
    linarith
  · intro h0
    subst h0
    unfold Estimator
    simp only [Nat.cast_zero, mul_zero, add_zero]
    rw [min_eq_right hq, max_eq_left hq]
    exact ⟨hA, by nlinarith⟩
  · intro h0
    subst h0
    unfold Estimator
    simp only [zero_mul, zero_add]
    rw [min_eq_left hn, max_eq_right hn]
    exact ⟨hB, by nlinarith⟩
  · intro hm _ _ _ _
    subst hm
    unfold Estimator
    simp only [pow_one]
    rcases le_total qAvg (nQueued : ℚ) with hle | hge
    · rw [max_eq_right hle, min_eq_left hle]
      exact ⟨by nlinarith, by nlinarith⟩
    · rw [max_eq_left hge, min_eq_right hge]
      exact ⟨by nlinarith, by nlinarith⟩

/-- C5 (witness): the amended bounds at `nQueued = 0`, `m = 3`, `qAvg = 8`,
`qW = 1/2` (the result is 1, between 0 and 8), and at `nQueued = 10`,
`m = 1`, `qAvg = 4`, `qW = 1/2`, where `1/2`, `2`, `5` and the result `7` are
exact. -/
theorem Estimator_range_witness :
    (min (8 : ℚ) ((0 : Nat) : ℚ) ≤ Estimator 0 3 8 (1 / 2) ∧
        Estimator 0 3 8 (1 / 2) ≤ max (8 : ℚ) ((0 : Nat) : ℚ)) ∧
      (min (4 : ℚ) ((10 : Nat) : ℚ) ≤ Estimator 10 1 4 (1 / 2) ∧
        Estimator 10 1 4 (1 / 2) ≤ max (4 : ℚ) ((10 : Nat) : ℚ)) :=
  ⟨(Estimator_range 0 3 8 (1 / 2) (by norm_num) (by norm_num) (by norm_num)).2.1 rfl,
    (Estimator_range 10 1 4 (1 / 2) (by norm_num) (by norm_num) (by norm_num)).2.2.2 rfl
      ⟨1, -1, by norm_num, by omega, by omega, by norm_num⟩
      ⟨1, 1, by norm_num, by omega, by omega, by norm_num⟩
      ⟨5, 0, by norm_num, by omega, by omega, by norm_num⟩
      ⟨7, 0, by norm_num, by omega, by omega, by norm_num⟩⟩

/-- C7: with the constants left by a successful `InitializeParams` (so
`minTh ≤ maxTh`, equality included) and `lInterm > 0`, `CalculatePNew` is
non-decreasing in `qAvg`, also across the jump at `qAvg = maxTh`. -/
theorem CalculatePNew_mono (s s' : ChokeQueueDisc) (qAvg1 qAvg2 : ℚ)
    (hinit : s.InitializeParams = some s') (hl : 0 < s.m_lInterm) (hq : qAvg1 ≤ qAvg2) :
    CalculatePNew qAvg1 s'.m_maxTh s'.m_vA s'.m_vB s'.m_curMaxP ≤
      CalculatePNew qAvg2 s'.m_maxTh s'.m_vA s'.m_vB s'.m_curMaxP := by
  by_cases h2 : qAvg2 ≥ s'.m_maxTh
  · have hone : CalculatePNew qAvg2 s'.m_maxTh s'.m_vA s'.m_vB s'.m_curMaxP = 1 := by
      unfold CalculatePNew
      simp [h2]
    rw [hone]
    exact CalculatePNew_le_one _ _ _ _ _
  · have h1 : ¬ qAvg1 ≥ s'.m_maxTh := fun h => h2 (le_trans h hq)
    obtain ⟨_, _, _, hP, d, hd, hA, hB⟩ := InitializeParams_constants hinit
    have hpos : 0 < 1 / (d * s.m_lInterm) := by positivity
    have hlin : (qAvg1 - s.m_minTh) * (1 / (d * s.m_lInterm)) ≤
        (qAvg2 - s.m_minTh) * (1 / (d * s.m_lInterm)) :=
      mul_le_mul_of_nonneg_right (by linarith) hpos.le
    unfold CalculatePNew
    simp only [h1, h2, if_false]
    rw [hP, hA, hB]
    simp only [linear_branch_eq _ s.m_minTh d s.m_lInterm hd hl]
    split_ifs <;> linarith

/-- C7 (witness): monotonicity across the jump, from `qAvg = 6` to
`qAvg = 8 = maxTh`, at the initialised example disc. -/
theorem CalculatePNew_mono_witness :
    exDisc.InitializeParams = some exDiscInit ∧ 0 < exDisc.m_lInterm ∧ (6 : ℚ) ≤ 8 ∧
      CalculatePNew 6 exDiscInit.m_maxTh exDiscInit.m_vA exDiscInit.m_vB exDiscInit.m_curMaxP ≤
        CalculatePNew 8 exDiscInit.m_maxTh exDiscInit.m_vA exDiscInit.m_vB
          exDiscInit.m_curMaxP :=
  ⟨exDisc_InitializeParams, by norm_num [exDisc], by norm_num,
    CalculatePNew_mono exDisc exDiscInit 6 8 exDisc_InitializeParams (by norm_num [exDisc])
      (by norm_num)⟩

/-- Function `ModifyP` is the compensation step followed by the scaling and the
clamp. -/
theorem ModifyP_eq (mode : QueueDiscMode) (p : ℚ) (count countBytes meanPktSize : Nat)
    (isWait : Bool) (size : Nat) :
    ModifyP mode p count countBytes meanPktSize isWait size =
      scaleAndClamp mode (compensate isWait (count1 mode count countBytes meanPktSize) p)
        meanPktSize size := rfl

/-- The compensation step never produces a negative probability from a
non-negative one. -/
theorem compensate_nonneg (isWait : Bool) (c p : ℚ) (hp : 0 ≤ p) :
    0 ≤ compensate isWait c p := by
  unfold compensate
  split_ifs with _ h1 h2 h3
  · exact le_refl 0
  · exact div_nonneg hp (by linarith)
  · exact zero_le_one
  · exact div_nonneg hp (by linarith)
  · exact zero_le_one

/-- Scaling and clamping keeps a non-negative probability in [0,1]. -/
theorem scaleAndClamp_bounds (mode : QueueDiscMode) (q : ℚ) (meanPktSize size : Nat)
    (hq : 0 ≤ q) :
    0 ≤ scaleAndClamp mode q meanPktSize size ∧ scaleAndClamp mode q meanPktSize size ≤ 1 := by
  have hs : 0 ≤ q * (size : ℚ) / (meanPktSize : ℚ) :=
    div_nonneg (mul_nonneg hq (Nat.cast_nonneg _)) (Nat.cast_nonneg _)
  unfold scaleAndClamp
  simp only
  split_ifs <;> constructor <;> linarith

/-- C8: for every `p` in [0,1], every `count`, `countBytes` and `size`,
every `meanPktSize > 0`, both values of the wait flag and both modes, the
result of `ModifyP` lies in [0,1]. -/
theorem ModifyP_bounds (mode : QueueDiscMode) (p : ℚ) (count countBytes meanPktSize : Nat)
    (isWait : Bool) (size : Nat) (hp0 : 0 ≤ p) (_hp1 : p ≤ 1) (_hmean : 0 < meanPktSize) :
    0 ≤ ModifyP mode p count countBytes meanPktSize isWait size ∧
      ModifyP mode p count countBytes meanPktSize isWait size ≤ 1 := by
  rw [ModifyP_eq]
  exact scaleAndClamp_bounds mode _ meanPktSize size (compensate_nonneg isWait _ p hp0)

/-- C8 (witness): bytes mode, wait flag set, `p = 1/2`, `countBytes = 1500`,
`meanPktSize = 500`, `size = 1000`. -/
theorem ModifyP_bounds_witness :
    0 ≤ ModifyP QueueDiscMode.QUEUE_DISC_MODE_BYTES (1 / 2) 3 1500 500 true 1000 ∧
      ModifyP QueueDiscMode.QUEUE_DISC_MODE_BYTES (1 / 2) 3 1500 500 true 1000 ≤ 1 :=
  ModifyP_bounds QueueDiscMode.QUEUE_DISC_MODE_BYTES (1 / 2) 3 1500 500 true 1000
    (by norm_num) (by norm_num) (by decide)

/-- For `p > 0` the compensation step, cut off at 1, is non-decreasing in
the count. -/
theorem compensate_mono (isWait : Bool) (c1 c2 p : ℚ) (hp : 0 < p) (hc : c1 ≤ c2) :
    min 1 (compensate isWait c1 p) ≤ min 1 (compensate isWait c2 p) := by
  have hcp : c1 * p ≤ c2 * p := mul_le_mul_of_nonneg_right hc hp.le
  have h2nn : 0 ≤ compensate isWait c2 p := compensate_nonneg isWait c2 p hp.le
  unfold compensate at h2nn ⊢
  cases isWait
  · simp only [Bool.false_eq_true, if_false] at h2nn ⊢
    by_cases h2 : c2 * p < 1
    · have h1 : c1 * p < 1 := lt_of_le_of_lt hcp h2
      simp only [h1, h2, if_true]
      refine min_le_min (le_refl 1) ?_
      exact div_le_div_of_nonneg_left hp.le (by linarith) (by linarith)
    · simp only [h2, if_false, min_self]
      exact min_le_left _ _
  · simp only [if_true] at h2nn ⊢
    by_cases h1 : c1 * p < 1
    · simp only [h1, if_true]
      rw [min_eq_right zero_le_one]
      exact le_min zero_le_one h2nn
    · have h1' : ¬ c2 * p < 1 := fun h => h1 (lt_of_le_of_lt hcp h)
      simp only [h1, h1', if_false]
      by_cases h2 : c2 * p < 2
      · have h12 : c1 * p < 2 := lt_of_le_of_lt hcp h2
        simp only [h12, h2, if_true]
        refine min_le_min (le_refl 1) ?_
        exact div_le_div_of_nonneg_left hp.le (by linarith) (by linarith)
      · simp only [h2, if_false, min_self]
        exact min_le_left _ _

/-- Scaling and clamping only looks at its argument through the cut-off at
1, and is non-decreasing in it. -/
theorem scaleAndClamp_mono (mode : QueueDiscMode) (q1 q2 : ℚ) (meanPktSize size : Nat)
    (h1 : 0 ≤ q1) (h : min 1 q1 ≤ min 1 q2) :
    scaleAndClamp mode q1 meanPktSize size ≤ scaleAndClamp mode q2 meanPktSize size := by
  by_cases hq2 : q2 < 1
  · have hq1 : q1 ≤ q2 := by
      rw [min_eq_right hq2.le] at h
      rcases le_total 1 q1 with h' | h'
      · rw [min_eq_left h'] at h
        linarith
      · rw [min_eq_right h'] at h
        exact h
    have hs : q1 * (size : ℚ) / (meanPktSize : ℚ) ≤ q2 * (size : ℚ) / (meanPktSize : ℚ) :=
      div_le_div_of_nonneg_right (mul_le_mul_of_nonneg_right hq1 (Nat.cast_nonneg _))
        (Nat.cast_nonneg _)
    have hq1' : q1 < 1 := lt_of_le_of_lt hq1 hq2
    unfold scaleAndClamp
    simp only [hq1', hq2, and_true]
    split_ifs <;> linarith
  · have hone : scaleAndClamp mode q2 meanPktSize size = 1 := by
      unfold scaleAndClamp
      simp only [hq2, and_false, if_false]
      split_ifs with h'
      · rfl
      · linarith
    rw [hone]
    exact (scaleAndClamp_bounds mode q1 meanPktSize size h1).2

/-- C9: for fixed `p > 0`, wait flag, `size` and `meanPktSize > 0`, `ModifyP`
is non-decreasing in the counters: if `count1 ≤ count2` and
`countBytes1 ≤ countBytes2` then the result for the first pair is at most
the result for the second, in packets mode (which reads `count`) and in
bytes mode (which reads `countBytes`). -/
theorem ModifyP_mono_count (mode : QueueDiscMode) (p : ℚ)
    (countA countB countBytesA countBytesB meanPktSize : Nat) (isWait : Bool) (size : Nat)
    (hp : 0 < p) (_hmean : 0 < meanPktSize) (hcount : countA ≤ countB)
    (hbytes : countBytesA ≤ countBytesB) :
    ModifyP mode p countA countBytesA meanPktSize isWait size ≤
      ModifyP mode p countB countBytesB meanPktSize isWait size := by
  rw [ModifyP_eq, ModifyP_eq]
  have hc : count1 mode countA countBytesA meanPktSize ≤
      count1 mode countB countBytesB meanPktSize := by
    unfold count1
    split_ifs
    · exact Nat.cast_le.mpr (Nat.div_le_div_right hbytes)
    · exact Nat.cast_le.mpr hcount
  exact scaleAndClamp_mono mode _ _ meanPktSize size (compensate_nonneg isWait _ p hp.le)
    (compensate_mono isWait _ _ p hp hc)

/-- C9 (witness): packets mode, no-wait, `p = 1/4`, from `count = 1` to
`count = 3`. -/
theorem ModifyP_mono_count_witness :
    ModifyP QueueDiscMode.QUEUE_DISC_MODE_PACKETS (1 / 4) 1 500 500 false 500 ≤
      ModifyP QueueDiscMode.QUEUE_DISC_MODE_PACKETS (1 / 4) 3 1500 500 false 500 :=
  ModifyP_mono_count QueueDiscMode.QUEUE_DISC_MODE_PACKETS (1 / 4) 1 3 500 1500 500 false 500
    (by norm_num) (by decide) (by decide) (by decide)

/-! ## Theorems: the packet store -/

/-- The iterator loop moves the iterator forward by the number of rounds. -/
theorem advance_eq (n ptr : Nat) : DropFromQueue.advance n ptr = ptr + n := by
  induction n generalizing ptr with
  | zero => rfl
  | succ k ih =>
    show DropFromQueue.advance k (ptr + 1) = ptr + (k + 1)
    rw [ih]
    omega

/-- Function `PeekAt (pos)` reads the entry at offset `pos`, if there is one. -/
theorem PeekAt_eq (q : DropFromQueue) (pos : Nat) : q.PeekAt pos = q.packets[pos]? := by
  unfold DropFromQueue.PeekAt DropFromQueue.DoPeek DropFromQueue.begin
  simp [advance_eq]

/-- Function `RemoveFrom (pos)` on an offset that holds a packet returns that packet
and erases the offset; nothing else in the store changes. -/
theorem RemoveFrom_of_getElem (q : DropFromQueue) (pos : Nat) (item : QueueDiscItem)
    (h : q.packets[pos]? = some item) :
    q.RemoveFrom pos = (some item, { q with packets := q.packets.eraseIdx pos }) := by
  unfold DropFromQueue.RemoveFrom DropFromQueue.DoDequeue DropFromQueue.begin
  simp only [advance_eq, Nat.zero_add]
  rw [h]

/-- C10: on a store holding `N` packets and for `pos < N`, `RemoveFrom (pos)`
returns the packet `PeekAt (pos)` returns on the same store (the entry at
offset `pos`), leaves `N - 1` packets, keeps every entry before `pos` in
place, moves every entry behind `pos` forward by one position, so that the
result is the original sequence with index `pos` erased; capacity and drop
record are untouched. -/
theorem RemoveFrom_spec (q : DropFromQueue) (pos : Nat) (hpos : pos < q.GetNPackets) :
    (q.RemoveFrom pos).1 = q.PeekAt pos ∧
      q.PeekAt pos = some (q.packets.get ⟨pos, hpos⟩) ∧
      (q.RemoveFrom pos).2.GetNPackets + 1 = q.GetNPackets ∧
      (∀ i, i < pos → (q.RemoveFrom pos).2.packets[i]? = q.packets[i]?) ∧
      (∀ i, pos ≤ i → (q.RemoveFrom pos).2.packets[i]? = q.packets[i + 1]?) ∧
      (q.RemoveFrom pos).2 = { q with packets := q.packets.eraseIdx pos } := by
  have hlen : pos < q.packets.length := hpos
  have hget : q.packets[pos]? = some (q.packets.get ⟨pos, hpos⟩) := by
    rw [List.getElem?_eq_getElem hlen]
    rfl
  rw [RemoveFrom_of_getElem q pos _ hget, PeekAt_eq]
  refine ⟨hget.symm, hget, ?_, ?_, ?_, rfl⟩
  · show (q.packets.eraseIdx pos).length + 1 = q.packets.length
    rw [List.length_eraseIdx_of_lt hlen]
    omega
  · intro i hi
    exact List.getElem?_eraseIdx_of_lt q.packets pos i hi
  · intro i hi
    exact List.getElem?_eraseIdx_of_ge q.packets pos i hi

/-- C10 (witness): removing offset 1 from the three-packet example store. -/
theorem RemoveFrom_spec_witness :
    1 < exQueue.GetNPackets ∧ (exQueue.RemoveFrom 1).1 = exQueue.PeekAt 1 ∧
      (exQueue.RemoveFrom 1).2.GetNPackets + 1 = exQueue.GetNPackets ∧
      (exQueue.RemoveFrom 1).2 = { exQueue with packets := exQueue.packets.eraseIdx 1 } :=
  ⟨by decide, (RemoveFrom_spec exQueue 1 (by decide)).1,
    (RemoveFrom_spec exQueue 1 (by decide)).2.2.1,
    (RemoveFrom_spec exQueue 1 (by decide)).2.2.2.2.2⟩

/-! ## Theorems: the drop decision engine -/

/-- The first part of `DoEnqueue` touches neither the configuration, nor the
store, nor the notifications, nor the random streams, nor `m_old`. -/
theorem updateAverage_frame (s : ChokeQueueDisc) (item : QueueDiscItem) (now : ℚ) :
    (s.updateAverage item now).internalQueue = s.internalQueue ∧
      (s.updateAverage item now).notifications = s.notifications ∧
      (s.updateAverage item now).rndDraws = s.rndDraws ∧
      (s.updateAverage item now).uvDraws = s.uvDraws ∧
      (s.updateAverage item now).m_old = s.m_old ∧
      (s.updateAverage item now).m_minTh = s.m_minTh ∧
      (s.updateAverage item now).m_maxTh = s.m_maxTh ∧
      (s.updateAverage item now).m_useEcn = s.m_useEcn ∧
      (s.updateAverage item now).m_useHardDrop = s.m_useHardDrop ∧
      (s.updateAverage item now).m_idle = false := by
  unfold ChokeQueueDisc.updateAverage
  by_cases h : s.m_idle = true
  · simp [h]
  · simp [h]

/-- When the engine samples and the sampled packet has the key of the
arrival, `DoEnqueue` is the match-drop path of the source. -/
theorem DoEnqueue_of_match (s : ChokeQueueDisc) (item : QueueDiscItem) (now : ℚ)
    (randompos : Nat) (u : ℚ) (randomitem : QueueDiscItem)
    (hq : (s.updateAverage item now).m_qAvg ≥ s.m_minTh) (hn : s.nQueued > 1)
    (hpeek : s.internalQueue.PeekAt randompos = some randomitem)
    (hkey : item.classify = randomitem.classify) :
    s.DoEnqueue item now randompos u =
      some (false,
        { (s.updateAverage item now) with
          rndDraws := s.rndDraws + 1
          notifications :=
            s.notifications ++ [Notification.dropBeforeEnqueue item Reason.FORCED_MARK]
          internalQueue := (s.internalQueue.RemoveFrom randompos).2 }) := by
  obtain ⟨hQ, hN, hR, _, _, hmin, _⟩ := updateAverage_frame s item now
  unfold ChokeQueueDisc.DoEnqueue
  simp only [hmin, hq, hn, and_self, if_true, hQ, hpeek, hkey, ChokeQueueDisc.DropBeforeEnqueue,
    hN, hR]

/-- The example disc `exBusy` takes the sampling branch on an arrival of
500 bytes: the average moves from 8 to 11/2, which is not below `minTh = 4`. -/
theorem exBusy_average (item : QueueDiscItem) (now : ℚ) :
    (exBusy.updateAverage item now).m_qAvg = 11 / 2 := by
  norm_num [ChokeQueueDisc.updateAverage, ChokeQueueDisc.nQueued, ChokeQueueDisc.GetMode,
    DropFromQueue.GetNPackets, Estimator, exBusy, exDiscInit, exDisc, exQueue]

/-- C1: if the average updated at this arrival is at least `minTh`, the
occupancy `nQueued` exceeds 1 and the packet at the sampled position `r` has
the classification key of the arrival, then `DoEnqueue` returns false, the
arrival is not stored, and the store afterwards is the previous store with
exactly the packet at index `r` (the sampled one) removed. This holds for
every `u`, every setting of `useEcn` and `useHardDrop`, and on both sides of
`maxTh`. -/
theorem DoEnqueue_match_drop (s : ChokeQueueDisc) (item : QueueDiscItem) (now : ℚ)
    (randompos : Nat) (u : ℚ) (randomitem : QueueDiscItem)
    (hq : (s.updateAverage item now).m_qAvg ≥ s.m_minTh) (hn : s.nQueued > 1)
    (hpeek : s.internalQueue.PeekAt randompos = some randomitem)
    (hkey : randomitem.classify = item.classify) :
    ∃ s' : ChokeQueueDisc, s.DoEnqueue item now randompos u = some (false, s') ∧
      s'.internalQueue =
        { s.internalQueue with packets := s.internalQueue.packets.eraseIdx randompos } ∧
      (s.internalQueue.RemoveFrom randompos).1 = some randomitem ∧
      s'.internalQueue.GetNPackets + 1 = s.internalQueue.GetNPackets := by
  have hget : s.internalQueue.packets[randompos]? = some randomitem := by
    rw [← PeekAt_eq]
    exact hpeek
  have hlt : randompos < s.internalQueue.packets.length := by
    by_contra hge
    rw [List.getElem?_eq_none (not_lt.mp hge)] at hget
    exact Option.noConfusion hget
  have hrem := RemoveFrom_of_getElem s.internalQueue randompos randomitem hget
  refine ⟨_, DoEnqueue_of_match s item now randompos u randomitem hq hn hpeek hkey.symm, ?_, ?_, ?_⟩
  · simp only [hrem]
  · simp only [hrem]
  · simp only [hrem]
    show (s.internalQueue.packets.eraseIdx randompos).length + 1 = s.internalQueue.packets.length
    rw [List.length_eraseIdx_of_lt hlt]
    omega

/-- C1 (witness): `pktD` arrives at `exBusy` and position 1 is sampled, where
`pktB` of the same key waits; the store shrinks from `pktA, pktB, pktC` to
`pktA, pktC`. -/
theorem DoEnqueue_match_drop_witness :
    (exBusy.updateAverage pktD 1).m_qAvg ≥ exBusy.m_minTh ∧ exBusy.nQueued > 1 ∧
      exBusy.internalQueue.PeekAt 1 = some pktB ∧ pktB.classify = pktD.classify ∧
      ∃ s' : ChokeQueueDisc, exBusy.DoEnqueue pktD 1 1 (1 / 2) = some (false, s') ∧
        s'.internalQueue =
          { exBusy.internalQueue with packets := exBusy.internalQueue.packets.eraseIdx 1 } ∧
        (exBusy.internalQueue.RemoveFrom 1).1 = some pktB ∧
        s'.internalQueue.GetNPackets + 1 = exBusy.internalQueue.GetNPackets :=
  have hq : (exBusy.updateAverage pktD 1).m_qAvg ≥ exBusy.m_minTh := by
    rw [exBusy_average]
    norm_num [exBusy, exDiscInit, exDisc]
  have hn : exBusy.nQueued > 1 := by decide
  have hpeek : exBusy.internalQueue.PeekAt 1 = some pktB := by decide
  ⟨hq, hn, hpeek, by decide,
    DoEnqueue_match_drop exBusy pktD 1 1 (1 / 2) pktB hq hn hpeek (by decide)⟩

/-- C2 (the code at the failing input): `pktD` arrives at `exBusy`, position
1 holds `pktB` of the same key, and the arrival is match-dropped; the one
notification the engine emits for it carries `FORCED_MARK`, which is not
`MATCHED_DROP`. -/
theorem match_drop_reports_FORCED_MARK :
    (exBusy.DoEnqueue pktD 1 1 (1 / 2)).map (fun r => (r.1, r.2.notifications)) =
        some (false, [Notification.dropBeforeEnqueue pktD Reason.FORCED_MARK]) ∧
      Reason.FORCED_MARK ≠ Reason.MATCHED_DROP := by
  have hq : (exBusy.updateAverage pktD 1).m_qAvg ≥ exBusy.m_minTh := by
    rw [exBusy_average]
    norm_num [exBusy, exDiscInit, exDisc]
  have hn : exBusy.nQueued > 1 := by decide
  have hpeek : exBusy.internalQueue.PeekAt 1 = some pktB := by decide
  rw [DoEnqueue_of_match exBusy pktD 1 1 (1 / 2) pktB hq hn hpeek (by decide)]
  refine ⟨?_, by decide⟩
  simp [exBusy, exDiscInit, exDisc]

/-- When the engine samples, the sampled packet is of another flow and the
updated average is at least `maxTh`, `DoEnqueue` applies the forced
disposition to the state reached after the sampling. -/
theorem DoEnqueue_of_forced (s : ChokeQueueDisc) (item : QueueDiscItem) (now : ℚ)
    (randompos : Nat) (u : ℚ) (randomitem : QueueDiscItem)
    (hmin : (s.updateAverage item now).m_qAvg ≥ s.m_minTh)
    (hmax : (s.updateAverage item now).m_qAvg ≥ s.m_maxTh) (hn : s.nQueued > 1)
    (hpeek : s.internalQueue.PeekAt randompos = some randomitem)
    (hkey : item.classify ≠ randomitem.classify) :
    s.DoEnqueue item now randompos u =
      some (ChokeQueueDisc.applyDisposition
        { (s.updateAverage item now) with rndDraws := s.rndDraws + 1 } item
        DropType.DTYPE_FORCED) := by
  obtain ⟨hQ, _, hR, _, _, hmin', hmax', _⟩ := updateAverage_frame s item now
  unfold ChokeQueueDisc.DoEnqueue
  simp only [hmin', hmin, hn, and_self, if_true, hQ, hpeek, hkey, if_false, hmax', hmax, hR]

/-- The first part of `DoEnqueue` does not read `m_old`. -/
theorem updateAverage_old (s : ChokeQueueDisc) (item : QueueDiscItem) (now : ℚ) (b : Bool) :
    ({ s with m_old := b } : ChokeQueueDisc).updateAverage item now =
      { (s.updateAverage item now) with m_old := b } := by
  unfold ChokeQueueDisc.updateAverage ChokeQueueDisc.nQueued ChokeQueueDisc.GetMode
  by_cases h : s.m_idle = true
  · simp [h]
  · simp [h]

/-- The forced disposition neither reads nor writes `m_old`. -/
theorem applyDisposition_forced_old (s : ChokeQueueDisc) (item : QueueDiscItem) (b : Bool) :
    ChokeQueueDisc.applyDisposition { s with m_old := b } item DropType.DTYPE_FORCED =
      ((ChokeQueueDisc.applyDisposition s item DropType.DTYPE_FORCED).1,
        { (ChokeQueueDisc.applyDisposition s item DropType.DTYPE_FORCED).2 with m_old := b }) := by
  unfold ChokeQueueDisc.applyDisposition ChokeQueueDisc.Mark ChokeQueueDisc.DropBeforeEnqueue
  cases hH : s.m_useHardDrop <;> cases hE : s.m_useEcn <;> cases hM : item.markable <;>
    cases hC : s.m_isNs1Compat <;> simp [hH, hE, hM, hC]

/-- C3: on an arrival with updated average at least `maxTh` (and at least
`minTh`, so that the engine samples), `nQueued > 1` and a sampled packet whose
classification key differs from the arrival's: if `useHardDrop` is set, or
`useEcn` is not set, or the packet cannot be marked, `DoEnqueue` returns
false, the store is unchanged and the notification is a drop with reason
`FORCED_DROP`; otherwise the packet is marked with reason `FORCED_MARK` and
handed to the store, whose result is returned. The outcome is the same for
every `u`, and changing `m_old` on entry changes nothing but `m_old` on exit. -/
theorem DoEnqueue_forced (s : ChokeQueueDisc) (item : QueueDiscItem) (now : ℚ)
    (randompos : Nat) (u : ℚ) (randomitem : QueueDiscItem)
    (hmin : (s.updateAverage item now).m_qAvg ≥ s.m_minTh)
    (hmax : (s.updateAverage item now).m_qAvg ≥ s.m_maxTh) (hn : s.nQueued > 1)
    (hpeek : s.internalQueue.PeekAt randompos = some randomitem)
    (hkey : item.classify ≠ randomitem.classify) :
    ((s.m_useHardDrop = true ∨ s.m_useEcn = false ∨ item.markable = false) →
        ∃ s' : ChokeQueueDisc, s.DoEnqueue item now randompos u = some (false, s') ∧
          s'.internalQueue = s.internalQueue ∧
          s'.notifications =
            s.notifications ++ [Notification.dropBeforeEnqueue item Reason.FORCED_DROP]) ∧
      ((s.m_useHardDrop = false ∧ s.m_useEcn = true ∧ item.markable = true) →
        ∃ s' : ChokeQueueDisc,
          s.DoEnqueue item now randompos u = some ((s.internalQueue.Enqueue item).1, s') ∧
          s'.internalQueue = (s.internalQueue.Enqueue item).2 ∧
          s'.notifications = s.notifications ++ [Notification.mark item Reason.FORCED_MARK]) ∧
      (∀ u2 : ℚ, s.DoEnqueue item now randompos u2 = s.DoEnqueue item now randompos u) ∧
      (∀ b : Bool, ({ s with m_old := b } : ChokeQueueDisc).DoEnqueue item now randompos u =
        (s.DoEnqueue item now randompos u).map (fun r => (r.1, { r.2 with m_old := b }))) := by
  obtain ⟨hQ, hN, _, _, _, _, _, hE, hH, _⟩ := updateAverage_frame s item now
  have hrun := DoEnqueue_of_forced s item now randompos u randomitem hmin hmax hn hpeek hkey
  refine ⟨?_, ?_, ?_, ?_⟩
  · intro hdrop
    rw [hrun]
    unfold ChokeQueueDisc.applyDisposition ChokeQueueDisc.Mark ChokeQueueDisc.DropBeforeEnqueue
    simp only [hE, hH, hQ, hN]
    cases hH2 : s.m_useHardDrop <;> cases hE2 : s.m_useEcn <;> cases hM : item.markable <;>
      cases hC : (s.updateAverage item now).m_isNs1Compat <;>
      simp_all
  · rintro ⟨hH2, hE2, hM⟩
    rw [hrun]
    unfold ChokeQueueDisc.applyDisposition ChokeQueueDisc.Mark ChokeQueueDisc.DropBeforeEnqueue
    simp [hE, hH, hQ, hN, hH2, hE2, hM]
  · intro u2
    rw [hrun, DoEnqueue_of_forced s item now randompos u2 randomitem hmin hmax hn hpeek hkey]
  · intro b
    have hupd := updateAverage_old s item now b
    have hrun2 := DoEnqueue_of_forced { s with m_old := b } item now randompos u randomitem
      (by rw [hupd]; exact hmin) (by rw [hupd]; exact hmax) hn hpeek hkey
    rw [hrun2, hrun, hupd, Option.map_some']
    exact congrArg some (applyDisposition_forced_old
      { (s.updateAverage item now) with rndDraws := s.rndDraws + 1 } item b)

/-- On an arrival at `exHigh` the average moves from 16 to 19/2, which is
above `maxTh = 8`. -/
theorem exHigh_average (item : QueueDiscItem) (now : ℚ) :
    (exHigh.updateAverage item now).m_qAvg = 19 / 2 := by
  norm_num [ChokeQueueDisc.updateAverage, ChokeQueueDisc.nQueued, ChokeQueueDisc.GetMode,
    DropFromQueue.GetNPackets, Estimator, exHigh, exBusy, exDiscInit, exDisc, exQueue]

/-- On an arrival at `exHighEcn` the average moves from 16 to 19/2 as well. -/
theorem exHighEcn_average (item : QueueDiscItem) (now : ℚ) :
    (exHighEcn.updateAverage item now).m_qAvg = 19 / 2 := by
  norm_num [ChokeQueueDisc.updateAverage, ChokeQueueDisc.nQueued, ChokeQueueDisc.GetMode,
    DropFromQueue.GetNPackets, Estimator, exHighEcn, exHigh, exBusy, exDiscInit, exDisc, exQueue]

/-- C3 (witness): `pktE` arrives while the average is above `maxTh` and
position 1 holds a packet of another flow. At `exHigh` (hard drop) it is
dropped with `FORCED_DROP`; at `exHighEcn` (ECN, no hard drop, markable
packet) it is marked with `FORCED_MARK` and enqueued. -/
theorem DoEnqueue_forced_witness :
    (∃ s' : ChokeQueueDisc, exHigh.DoEnqueue pktE 1 1 (1 / 2) = some (false, s') ∧
        s'.internalQueue = exHigh.internalQueue ∧
        s'.notifications =
          exHigh.notifications ++ [Notification.dropBeforeEnqueue pktE Reason.FORCED_DROP]) ∧
      (∃ s' : ChokeQueueDisc,
        exHighEcn.DoEnqueue pktE 1 1 (1 / 2) =
          some ((exHighEcn.internalQueue.Enqueue pktE).1, s') ∧
        s'.internalQueue = (exHighEcn.internalQueue.Enqueue pktE).2 ∧
        s'.notifications =
          exHighEcn.notifications ++ [Notification.mark pktE Reason.FORCED_MARK]) :=
  ⟨(DoEnqueue_forced exHigh pktE 1 1 (1 / 2) pktB
      (by rw [exHigh_average]; norm_num [exHigh, exBusy, exDiscInit, exDisc])
      (by rw [exHigh_average]; norm_num [exHigh, exBusy, exDiscInit, exDisc])
      (by decide) (by decide) (by decide)).1 (Or.inl rfl),
    (DoEnqueue_forced exHighEcn pktE 1 1 (1 / 2) pktB
      (by rw [exHighEcn_average]; norm_num [exHighEcn, exHigh, exBusy, exDiscInit, exDisc])
      (by rw [exHighEcn_average]; norm_num [exHighEcn, exHigh, exBusy, exDiscInit, exDisc])
      (by decide) (by decide) (by decide)).2.1 ⟨rfl, rfl, rfl⟩⟩

/-- C4: on an arrival where the updated average is below `minTh` or the
occupancy `nQueued` is at most 1 (whatever the average, above `maxTh`
included), the engine emits no drop or mark notification, draws neither a
position nor a probability, hands the packet to the tail enqueue of the store
and returns the store's result; afterwards `m_old` is false and `m_vProb` is
0. The result does not mention `randompos` or `u`. -/
theorem DoEnqueue_accept (s : ChokeQueueDisc) (item : QueueDiscItem) (now : ℚ)
    (randompos : Nat) (u : ℚ)
    (h : (s.updateAverage item now).m_qAvg < s.m_minTh ∨ s.nQueued ≤ 1) :
    s.DoEnqueue item now randompos u =
        some ((s.internalQueue.Enqueue item).1,
          { (s.updateAverage item now) with
            m_vProb := 0
            m_old := false
            internalQueue := (s.internalQueue.Enqueue item).2 }) ∧
      ∃ s' : ChokeQueueDisc,
        s.DoEnqueue item now randompos u = some ((s.internalQueue.Enqueue item).1, s') ∧
        s'.internalQueue = (s.internalQueue.Enqueue item).2 ∧
        s'.notifications = s.notifications ∧
        s'.rndDraws = s.rndDraws ∧ s'.uvDraws = s.uvDraws ∧
        s'.m_old = false ∧ s'.m_vProb = 0 := by
  obtain ⟨hQ, hN, hR, hU, _, hmin, _⟩ := updateAverage_frame s item now
  have hcond : ¬ ((s.updateAverage item now).m_qAvg ≥ (s.updateAverage item now).m_minTh ∧
      s.nQueued > 1) := by
    rw [hmin]
    rintro ⟨h1, h2⟩
    rcases h with h | h
    · exact absurd h1 (not_le.mpr h)
    · omega
  have hrun : s.DoEnqueue item now randompos u =
      some ((s.internalQueue.Enqueue item).1,
        { (s.updateAverage item now) with
          m_vProb := 0
          m_old := false
          internalQueue := (s.internalQueue.Enqueue item).2 }) := by
    unfold ChokeQueueDisc.DoEnqueue
    simp only [hcond, if_false, ChokeQueueDisc.applyDisposition, hQ]
  exact ⟨hrun, _, hrun, rfl, hN, hR, hU, rfl, rfl⟩

/-- On an arrival at `exLow` the average moves from 2 to 5/2, which is below
`minTh = 4`. -/
theorem exLow_average (item : QueueDiscItem) (now : ℚ) :
    (exLow.updateAverage item now).m_qAvg = 5 / 2 := by
  norm_num [ChokeQueueDisc.updateAverage, ChokeQueueDisc.nQueued, ChokeQueueDisc.GetMode,
    DropFromQueue.GetNPackets, Estimator, exLow, exBusy, exDiscInit, exDisc, exQueue]

/-- C4 (witness): `pktD` arrives at `exLow`, whose average stays below
`minTh`; although `pktB` of the same flow sits at position 1, nothing is
sampled and the packet goes to the store. -/
theorem DoEnqueue_accept_witness :
    (exLow.updateAverage pktD 1).m_qAvg < exLow.m_minTh ∧
      ∃ s' : ChokeQueueDisc,
        exLow.DoEnqueue pktD 1 1 (1 / 2) = some ((exLow.internalQueue.Enqueue pktD).1, s') ∧
        s'.internalQueue = (exLow.internalQueue.Enqueue pktD).2 ∧
        s'.notifications = exLow.notifications ∧
        s'.rndDraws = exLow.rndDraws ∧ s'.uvDraws = exLow.uvDraws ∧
        s'.m_old = false ∧ s'.m_vProb = 0 :=
  have hq : (exLow.updateAverage pktD 1).m_qAvg < exLow.m_minTh := by
    rw [exLow_average]
    norm_num [exLow, exBusy, exDiscInit, exDisc]
  ⟨hq, (DoEnqueue_accept exLow pktD 1 1 (1 / 2) (Or.inl hq)).2⟩

/-! ## Theorems: indexed peek and FIFO order of the store -/

/-- C11: `PeekAt (pos)` is a pure read (it yields a packet and no new store,
so the store is left as it was); it returns the packet at 0-based offset
`pos` from the head when `pos` is below the current size, and none when
`pos` is at or beyond the current size, in particular on an empty store. -/
theorem PeekAt_spec (q : DropFromQueue) (pos : Nat) :
    q.PeekAt pos = q.packets[pos]? ∧
      (∀ h : pos < q.GetNPackets, q.PeekAt pos = some (q.packets.get ⟨pos, h⟩)) ∧
      (q.GetNPackets ≤ pos → q.PeekAt pos = none) ∧
      (q.packets = [] → q.PeekAt pos = none) := by
  refine ⟨PeekAt_eq q pos, ?_, ?_, ?_⟩
  · intro h
    rw [PeekAt_eq, List.getElem?_eq_getElem h]
    rfl
  · intro h
    rw [PeekAt_eq]
    exact List.getElem?_eq_none h
  · intro h
    rw [PeekAt_eq, h]
    rfl

/-- C11 (witness): on the three-packet example store, offset 1 holds `pktB`
and offset 3 holds nothing. -/
theorem PeekAt_spec_witness :
    exQueue.PeekAt 1 = some pktB ∧ exQueue.PeekAt 3 = none :=
  ⟨(PeekAt_spec exQueue 1).2.1 (by decide), (PeekAt_spec exQueue 3).2.2.1 (by decide)⟩

/-- A successful `Enqueue` appends the packet at the tail and changes nothing
else. -/
theorem Enqueue_of_success (q : DropFromQueue) (p : QueueDiscItem)
    (h : (q.Enqueue p).1 = true) :
    (q.Enqueue p).2 = { q with packets := q.packets ++ [p] } := by
  unfold DropFromQueue.Enqueue DropFromQueue.DoEnqueue DropFromQueue.«end» at h ⊢
  simp only at h ⊢
  split_ifs at h ⊢ with hov
  simp

/-- After a successful run of `enqueueAll` the store holds its former packets
followed by the new ones, in order. -/
theorem enqueueAll_packets (ps : List QueueDiscItem) :
    ∀ q q' : DropFromQueue, q.enqueueAll ps = some q' → q'.packets = q.packets ++ ps := by
  induction ps with
  | nil =>
    intro q q' h
    simp only [DropFromQueue.enqueueAll, Option.some.injEq] at h
    rw [← h, List.append_nil]
  | cons p ps ih =>
    intro q q' h
    simp only [DropFromQueue.enqueueAll] at h
    split_ifs at h with hok
    rw [ih _ _ h, Enqueue_of_success q p hok]
    simp

/-- Function `Dequeue` on an empty store returns none and leaves the store as
it is. -/
theorem Dequeue_of_empty (q : DropFromQueue) (h : q.packets = []) : q.Dequeue = (none, q) := by
  unfold DropFromQueue.Dequeue DropFromQueue.DoDequeue DropFromQueue.begin
  simp [h]

/-- Function `Dequeue` on a non-empty store returns the head and keeps the
rest. -/
theorem Dequeue_of_cons (q : DropFromQueue) (p : QueueDiscItem) (rest : List QueueDiscItem)
    (h : q.packets = p :: rest) : q.Dequeue = (some p, { q with packets := rest }) := by
  unfold DropFromQueue.Dequeue DropFromQueue.DoDequeue DropFromQueue.begin
  simp [h]

/-- Dequeuing as many times as there are packets returns exactly the packets,
head first, and empties the store. -/
theorem dequeueN_all (l : List QueueDiscItem) :
    ∀ q : DropFromQueue, q.packets = l →
      (q.dequeueN l.length).1 = l.map some ∧ (q.dequeueN l.length).2.packets = [] := by
  induction l with
  | nil =>
    intro q h
    exact ⟨rfl, h⟩
  | cons p rest ih =>
    intro q h
    have hd := Dequeue_of_cons q p rest h
    have hrec := ih { q with packets := rest } rfl
    simp only [List.length_cons, DropFromQueue.dequeueN, hd, List.map_cons]
    exact ⟨by rw [hrec.1], hrec.2⟩

/-- C12: if `Enqueue (p)` succeeds on an empty store, the next `Dequeue`
returns `p` and leaves the store empty; more generally, after any sequence of
packets has been enqueued successfully at the tail (no indexed removal in
between), successive `Dequeue` calls return the packets of the store in
arrival order (on a store that started empty: exactly the enqueued
sequence, after which the store is empty and `Dequeue` returns none); and
`Dequeue` on an empty store returns none and changes nothing. -/
theorem FIFO_round_trip (q q' : DropFromQueue) (ps : List QueueDiscItem)
    (hall : q.enqueueAll ps = some q') :
    (q'.dequeueN (q.packets ++ ps).length).1 = (q.packets ++ ps).map some ∧
      (q.packets = [] →
        (q'.dequeueN ps.length).1 = ps.map some ∧
        (q'.dequeueN ps.length).2.packets = [] ∧
        ((q'.dequeueN ps.length).2.Dequeue).1 = none) ∧
      (∀ p : QueueDiscItem, q.packets = [] → (q.Enqueue p).1 = true →
        ((q.Enqueue p).2.Dequeue).1 = some p ∧ ((q.Enqueue p).2.Dequeue).2.packets = []) ∧
      (∀ e : DropFromQueue, e.packets = [] → e.Dequeue = (none, e)) := by
  have hpk := enqueueAll_packets ps q q' hall
  refine ⟨(dequeueN_all _ q' hpk).1, ?_, ?_, Dequeue_of_empty⟩
  · intro hempty
    have hpk2 : q'.packets = ps := by rw [hpk, hempty, List.nil_append]
    obtain ⟨h1, h2⟩ := dequeueN_all ps q' hpk2
    refine ⟨h1, h2, ?_⟩
    rw [Dequeue_of_empty _ h2]
  · intro p hempty hok
    have happ := Enqueue_of_success q p hok
    have hcons : (q.Enqueue p).2.packets = p :: [] := by rw [happ, hempty]; rfl
    rw [Dequeue_of_cons _ p [] hcons]
    exact ⟨rfl, rfl⟩

/-- C12 (witness): `pktA`, `pktB`, `pktC` enqueued on the empty example store
come back in that order, after which the store is empty. -/
theorem FIFO_round_trip_witness :
    exDisc.internalQueue.enqueueAll [pktA, pktB, pktC] = some exQueue ∧
      (exQueue.dequeueN 3).1 = [some pktA, some pktB, some pktC] ∧
      (exQueue.dequeueN 3).2.packets = [] ∧
      ((exQueue.dequeueN 3).2.Dequeue).1 = none :=
  ⟨by decide,
    (FIFO_round_trip exDisc.internalQueue exQueue [pktA, pktB, pktC] (by decide)).2.1 rfl⟩

/-! ## Theorems: initialisation, the probability at and above `maxTh`, byte scaling -/

/-- C13: `InitializeParams` fails (its assertion aborts, no state results)
if and only if `minTh > maxTh`; for every configuration with
`minTh ≤ maxTh`, equality included, it yields an initialised state. The same
holds for the assertion of `SetTh`. -/
theorem InitializeParams_fails_iff (s : ChokeQueueDisc) :
    (s.InitializeParams = none ↔ s.m_minTh > s.m_maxTh) ∧
      (s.m_minTh ≤ s.m_maxTh ↔ ∃ s' : ChokeQueueDisc, s.InitializeParams = some s') ∧
      (s.m_minTh = s.m_maxTh → (s.InitializeParams).isSome = true) ∧
      (∀ minTh maxTh : ℚ, s.SetTh minTh maxTh = none ↔ minTh > maxTh) := by
  refine ⟨?_, ?_, ?_, ?_⟩
  · unfold ChokeQueueDisc.InitializeParams
    by_cases h : s.m_minTh ≤ s.m_maxTh
    · simp [h]
    · simp [h, not_le.mp h]
  · unfold ChokeQueueDisc.InitializeParams
    by_cases h : s.m_minTh ≤ s.m_maxTh
    · simp [h]
    · simp [h]
  · intro h
    unfold ChokeQueueDisc.InitializeParams
    simp [h.le]
  · intro minTh maxTh
    unfold ChokeQueueDisc.SetTh
    by_cases h : minTh ≤ maxTh
    · simp [h]
    · simp [h, not_le.mp h]

/-- C13 (witness): the example configuration has `minTh = 4 ≤ maxTh = 8` and
initialises; with the thresholds swapped it does not. -/
theorem InitializeParams_fails_iff_witness :
    (∃ s' : ChokeQueueDisc, exDisc.InitializeParams = some s') ∧
      ({ exDisc with m_minTh := 8, m_maxTh := 4 } : ChokeQueueDisc).InitializeParams = none :=
  ⟨(InitializeParams_fails_iff exDisc).2.1.mp (by norm_num [exDisc]),
    (InitializeParams_fails_iff { exDisc with m_minTh := 8, m_maxTh := 4 }).1.mpr
      (by norm_num)⟩

/-- C15: for every `qAvg ≥ maxTh` and all `vA`, `vB`, `maxP`, of any sign or
size, `CalculatePNew` returns exactly 1. -/
theorem CalculatePNew_at_or_above_maxTh (qAvg maxTh vA vB maxP : ℚ) (h : qAvg ≥ maxTh) :
    CalculatePNew qAvg maxTh vA vB maxP = 1 := by
  unfold CalculatePNew
  simp [h]

/-- C15 (witness): `qAvg = 20`, `maxTh = 15`, with a negative slope and a
large `maxP`. -/
theorem CalculatePNew_at_or_above_maxTh_witness :
    CalculatePNew 20 15 (-3) 100 7 = 1 :=
  CalculatePNew_at_or_above_maxTh 20 15 (-3) 100 7 (by norm_num)

/-- C20 (as stated, refuted): in bytes mode without waiting, `p = 1/2`,
`countBytes = 1000`, `meanPktSize = 500` give the count 2 and the
compensated probability `q = 1`; for a packet of 250 bytes `ModifyP` returns
1, whereas `min (1, q * size / meanPktSize)` is `1/2`. -/
theorem ModifyP_unscaled_at_one :
    count1 QueueDiscMode.QUEUE_DISC_MODE_BYTES 0 1000 500 = 2 ∧
      compensate false 2 (1 / 2) = 1 ∧
      ModifyP QueueDiscMode.QUEUE_DISC_MODE_BYTES (1 / 2) 0 1000 500 false 250 = 1 ∧
      min (1 : ℚ) (1 * ((250 : Nat) : ℚ) / ((500 : Nat) : ℚ)) = 1 / 2 := by
  refine ⟨?_, ?_, ?_, ?_⟩
  · norm_num [count1]
  · norm_num [compensate]
  · norm_num [ModifyP]
  · norm_num

/-- C20 (amended): in bytes mode, for every `p`, `countBytes`, `size` and
`meanPktSize > 0`, with `q` the probability produced by the wait / no-wait
compensation step on the count `countBytes / meanPktSize`, `ModifyP` returns
`min (1, q * size / meanPktSize)` when `q < 1` and returns 1 when `q ≥ 1`,
where no scaling takes place. -/
theorem ModifyP_bytes_scaling (p : ℚ) (count countBytes meanPktSize : Nat) (isWait : Bool)
    (size : Nat) (_hmean : 0 < meanPktSize) :
    ModifyP QueueDiscMode.QUEUE_DISC_MODE_BYTES p count countBytes meanPktSize isWait size =
      if compensate isWait ((countBytes / meanPktSize : Nat) : ℚ) p < 1 then
        min 1 (compensate isWait ((countBytes / meanPktSize : Nat) : ℚ) p * (size : ℚ) /
          (meanPktSize : ℚ))
      else 1 := by
  rw [ModifyP_eq]
  unfold scaleAndClamp count1
  simp only [if_true, true_and]
  by_cases hq : compensate isWait ((countBytes / meanPktSize : Nat) : ℚ) p < 1
  · simp only [hq, if_true]
    split_ifs with h1
    · exact (min_eq_left h1.le).symm
    · exact (min_eq_right (not_lt.mp h1)).symm
  · simp only [hq, if_false]
    split_ifs with h1
    · rfl
    · exact le_antisymm (not_lt.mp h1) (not_lt.mp hq)

/-- C20 (witness): bytes mode without waiting, `p = 1/4`, `countBytes = 1000`,
`meanPktSize = 500`: the count is 2, the compensated probability is
`q = 1/2 < 1`, and a packet of 250 bytes gets `min (1, q * 250 / 500) = 1/4`;
with `p = 1/2` instead, `q = 1` and the result is 1. -/
theorem ModifyP_bytes_scaling_witness :
    compensate false ((1000 / 500 : Nat) : ℚ) (1 / 4) = 1 / 2 ∧
      ModifyP QueueDiscMode.QUEUE_DISC_MODE_BYTES (1 / 4) 0 1000 500 false 250 = 1 / 4 ∧
      ModifyP QueueDiscMode.QUEUE_DISC_MODE_BYTES (1 / 2) 0 1000 500 false 250 = 1 := by
  have hq : compensate false ((1000 / 500 : Nat) : ℚ) (1 / 4) = 1 / 2 := by
    norm_num [compensate]
  have hq1 : compensate false ((1000 / 500 : Nat) : ℚ) (1 / 2) = 1 := by
    norm_num [compensate]
  refine ⟨hq, ?_, ?_⟩
  · rw [ModifyP_bytes_scaling (1 / 4) 0 1000 500 false 250 (by decide), hq]
    norm_num
  · rw [ModifyP_bytes_scaling (1 / 2) 0 1000 500 false 250 (by decide), hq1]
    norm_num

/-! ## Theorems: idle compensation -/

/-- The average after the first part of `DoEnqueue` is the estimator applied
with the exponent `estimatorExponent`. -/
theorem updateAverage_qAvg (s : ChokeQueueDisc) (item : QueueDiscItem) (now : ℚ) :
    (s.updateAverage item now).m_qAvg =
      Estimator s.nQueued (s.estimatorExponent now) s.m_qAvg s.m_qW := by
  unfold ChokeQueueDisc.updateAverage ChokeQueueDisc.estimatorExponent
  by_cases h : s.m_idle = true
  · simp [h]
  · simp [h]

/-- The first part of `DoEnqueue` increments the two counters (as unsigned
32-bit values) and leaves the constants read by `DropEarly` alone. -/
theorem updateAverage_counters (s : ChokeQueueDisc) (item : QueueDiscItem) (now : ℚ) :
    (s.updateAverage item now).m_count = (s.m_count + 1) % 2 ^ 32 ∧
      (s.updateAverage item now).m_countBytes = (s.m_countBytes + item.size) % 2 ^ 32 ∧
      (s.updateAverage item now).m_vA = s.m_vA ∧
      (s.updateAverage item now).m_vB = s.m_vB ∧
      (s.updateAverage item now).m_curMaxP = s.m_curMaxP ∧
      (s.updateAverage item now).m_mode = s.m_mode ∧
      (s.updateAverage item now).m_meanPktSize = s.m_meanPktSize ∧
      (s.updateAverage item now).m_isWait = s.m_isWait := by
  unfold ChokeQueueDisc.updateAverage
  by_cases h : s.m_idle = true
  · simp [h]
  · simp [h]

/-- When the engine samples a packet of another flow between the thresholds
and no drop-eligible cycle is in progress, `DoEnqueue` restarts the counters,
sets `m_old` and hands the packet to the store. -/
theorem DoEnqueue_of_first (s : ChokeQueueDisc) (item : QueueDiscItem) (now : ℚ)
    (randompos : Nat) (u : ℚ) (randomitem : QueueDiscItem)
    (hmin : (s.updateAverage item now).m_qAvg ≥ s.m_minTh)
    (hmax : (s.updateAverage item now).m_qAvg < s.m_maxTh) (hn : s.nQueued > 1)
    (hpeek : s.internalQueue.PeekAt randompos = some randomitem)
    (hkey : item.classify ≠ randomitem.classify) (hold : s.m_old = false) :
    s.DoEnqueue item now randompos u =
      some ((s.internalQueue.Enqueue item).1,
        { (s.updateAverage item now) with
          rndDraws := s.rndDraws + 1
          m_count := 1
          m_countBytes := item.size
          m_old := true
          internalQueue := (s.internalQueue.Enqueue item).2 }) := by
  obtain ⟨hQ, _, hR, _, hO, hmin', hmax', _⟩ := updateAverage_frame s item now
  unfold ChokeQueueDisc.DoEnqueue
  simp only [hmin', hmin, hn, and_self, if_true, hQ, hpeek, hkey, if_false, hmax',
    not_le.mpr hmax, ge_iff_le, hO, hold, hR, ChokeQueueDisc.applyDisposition]

/-- When the engine samples a packet of another flow between the thresholds
while a drop-eligible cycle is in progress, `DoEnqueue` lets `DropEarly`
decide between the unforced disposition and plain acceptance. -/
theorem DoEnqueue_of_early (s : ChokeQueueDisc) (item : QueueDiscItem) (now : ℚ)
    (randompos : Nat) (u : ℚ) (randomitem : QueueDiscItem)
    (hmin : (s.updateAverage item now).m_qAvg ≥ s.m_minTh)
    (hmax : (s.updateAverage item now).m_qAvg < s.m_maxTh) (hn : s.nQueued > 1)
    (hpeek : s.internalQueue.PeekAt randompos = some randomitem)
    (hkey : item.classify ≠ randomitem.classify) (hold : s.m_old = true) :
    s.DoEnqueue item now randompos u =
      some (if (ChokeQueueDisc.DropEarly
            { (s.updateAverage item now) with rndDraws := s.rndDraws + 1 } item s.nQueued u).1
        then ChokeQueueDisc.applyDisposition (ChokeQueueDisc.DropEarly
            { (s.updateAverage item now) with rndDraws := s.rndDraws + 1 } item s.nQueued u).2
            item DropType.DTYPE_UNFORCED
        else ChokeQueueDisc.applyDisposition (ChokeQueueDisc.DropEarly
            { (s.updateAverage item now) with rndDraws := s.rndDraws + 1 } item s.nQueued u).2
            item DropType.DTYPE_NONE) := by
  obtain ⟨hQ, _, hR, _, hO, hmin', hmax', _⟩ := updateAverage_frame s item now
  unfold ChokeQueueDisc.DoEnqueue
  simp only [hmin', hmin, hn, and_self, if_true, hQ, hpeek, hkey, if_false, hmax',
    not_le.mpr hmax, ge_iff_le, hO, hold, hR]
  split_ifs <;> simp_all

/-- What `DropEarly` does on the state reached after the sampling: it
compares `u` with `ModifyP (CalculatePNew ...)` computed from the updated
average and the incremented counters, records both probabilities, counts one
draw from `m_uv`, and resets the counters when it answers 1. -/
theorem DropEarly_after_update (s : ChokeQueueDisc) (item : QueueDiscItem) (now : ℚ) (n : Nat)
    (u : ℚ) :
    ChokeQueueDisc.DropEarly { (s.updateAverage item now) with rndDraws := s.rndDraws + 1 }
        item n u =
      if u ≤ ModifyP s.m_mode
          (CalculatePNew (s.updateAverage item now).m_qAvg s.m_maxTh s.m_vA s.m_vB s.m_curMaxP)
          ((s.m_count + 1) % 2 ^ 32) ((s.m_countBytes + item.size) % 2 ^ 32) s.m_meanPktSize
          s.m_isWait item.size
      then (true,
        { (s.updateAverage item now) with
          rndDraws := s.rndDraws + 1
          m_vProb1 := CalculatePNew (s.updateAverage item now).m_qAvg s.m_maxTh s.m_vA s.m_vB
            s.m_curMaxP
          m_vProb := ModifyP s.m_mode
            (CalculatePNew (s.updateAverage item now).m_qAvg s.m_maxTh s.m_vA s.m_vB
              s.m_curMaxP)
            ((s.m_count + 1) % 2 ^ 32) ((s.m_countBytes + item.size) % 2 ^ 32) s.m_meanPktSize
            s.m_isWait item.size
          uvDraws := s.uvDraws + 1
          m_count := 0
          m_countBytes := 0 })
      else (false,
        { (s.updateAverage item now) with
          rndDraws := s.rndDraws + 1
          m_vProb1 := CalculatePNew (s.updateAverage item now).m_qAvg s.m_maxTh s.m_vA s.m_vB
            s.m_curMaxP
          m_vProb := ModifyP s.m_mode
            (CalculatePNew (s.updateAverage item now).m_qAvg s.m_maxTh s.m_vA s.m_vB
              s.m_curMaxP)
            ((s.m_count + 1) % 2 ^ 32) ((s.m_countBytes + item.size) % 2 ^ 32) s.m_meanPktSize
            s.m_isWait item.size
          uvDraws := s.uvDraws + 1 }) := by
  obtain ⟨_, _, _, hU, _, _, hmax, _⟩ := updateAverage_frame s item now
  obtain ⟨hc, hcb, hA, hB, hP, hM, hS, hW⟩ := updateAverage_counters s item now
  unfold ChokeQueueDisc.DropEarly ChokeQueueDisc.GetMode
  simp only [hU, hmax, hc, hcb, hA, hB, hP, hM, hS, hW]

/-- C18: on an arrival with `minTh ≤` updated average `< maxTh`,
`nQueued > 1`, a sampled packet of another flow, `m_old` set on entry and ECN
disabled: if `u ≤ ModifyP (CalculatePNew (qAvg, maxTh, vA, vB, maxP), count,
countBytes, meanPktSize, waitFlag, size)`, with the average updated and the
counters already incremented for this arrival, the packet is dropped with
reason `UNFORCED_DROP`, `DoEnqueue` returns false, the store is unchanged and
both counters are 0 afterwards; if `u` is larger, no notification is emitted,
the packet is handed to the store and the incremented counters are kept. So
the unforced drop happens exactly when `u` is at most that probability. -/
theorem DoEnqueue_unforced_drop (s : ChokeQueueDisc) (item : QueueDiscItem) (now : ℚ)
    (randompos : Nat) (u : ℚ) (randomitem : QueueDiscItem)
    (hmin : (s.updateAverage item now).m_qAvg ≥ s.m_minTh)
    (hmax : (s.updateAverage item now).m_qAvg < s.m_maxTh) (hn : s.nQueued > 1)
    (hpeek : s.internalQueue.PeekAt randompos = some randomitem)
    (hkey : item.classify ≠ randomitem.classify) (hold : s.m_old = true)
    (hecn : s.m_useEcn = false) :
    (u ≤ ModifyP s.m_mode
          (CalculatePNew (s.updateAverage item now).m_qAvg s.m_maxTh s.m_vA s.m_vB s.m_curMaxP)
          ((s.m_count + 1) % 2 ^ 32) ((s.m_countBytes + item.size) % 2 ^ 32) s.m_meanPktSize
          s.m_isWait item.size →
        ∃ s' : ChokeQueueDisc, s.DoEnqueue item now randompos u = some (false, s') ∧
          s'.internalQueue = s.internalQueue ∧
          s'.notifications =
            s.notifications ++ [Notification.dropBeforeEnqueue item Reason.UNFORCED_DROP] ∧
          s'.m_count = 0 ∧ s'.m_countBytes = 0) ∧
      (¬ u ≤ ModifyP s.m_mode
          (CalculatePNew (s.updateAverage item now).m_qAvg s.m_maxTh s.m_vA s.m_vB s.m_curMaxP)
          ((s.m_count + 1) % 2 ^ 32) ((s.m_countBytes + item.size) % 2 ^ 32) s.m_meanPktSize
          s.m_isWait item.size →
        ∃ s' : ChokeQueueDisc,
          s.DoEnqueue item now randompos u = some ((s.internalQueue.Enqueue item).1, s') ∧
          s'.internalQueue = (s.internalQueue.Enqueue item).2 ∧
          s'.notifications = s.notifications ∧
          s'.m_count = (s.m_count + 1) % 2 ^ 32 ∧
          s'.m_countBytes = (s.m_countBytes + item.size) % 2 ^ 32) := by
  obtain ⟨hQ, hN, _, _, _, _, _, hE, _⟩ := updateAverage_frame s item now
  obtain ⟨hc, hcb, _⟩ := updateAverage_counters s item now
  have hrun := DoEnqueue_of_early s item now randompos u randomitem hmin hmax hn hpeek hkey hold
  rw [DropEarly_after_update] at hrun
  constructor
  · intro hu
    rw [hrun]
    simp only [hu, if_true, ChokeQueueDisc.applyDisposition, hE, hecn, Bool.not_false,
      ChokeQueueDisc.DropBeforeEnqueue, hQ, hN]
    exact ⟨_, rfl, rfl, rfl, rfl, rfl⟩
  · intro hu
    rw [hrun]
    simp only [hu, if_false, ChokeQueueDisc.applyDisposition, hQ, Bool.false_eq_true]
    exact ⟨_, rfl, rfl, hN, hc, hcb⟩

/-- On an arrival at `exBusy8` the average moves from 8 to 11/2. -/
theorem exBusy8_average (item : QueueDiscItem) (now : ℚ) :
    (exBusy8.updateAverage item now).m_qAvg = 11 / 2 := by
  norm_num [ChokeQueueDisc.updateAverage, ChokeQueueDisc.nQueued, ChokeQueueDisc.GetMode,
    DropFromQueue.GetNPackets, Estimator, exBusy8, exBusy, exDiscInit, exDisc, exQueue]

/-- The early-drop probability on an arrival of 500 bytes at `exBusy8`:
`CalculatePNew` gives 3/16, the eighth packet since the last drop raises it
to 3/8. -/
theorem exBusy8_probability (item : QueueDiscItem) (now : ℚ) :
    ModifyP exBusy8.m_mode
        (CalculatePNew (exBusy8.updateAverage item now).m_qAvg exBusy8.m_maxTh exBusy8.m_vA
          exBusy8.m_vB exBusy8.m_curMaxP)
        ((exBusy8.m_count + 1) % 2 ^ 32) ((exBusy8.m_countBytes + pktE.size) % 2 ^ 32)
        exBusy8.m_meanPktSize exBusy8.m_isWait pktE.size = 3 / 8 := by
  rw [exBusy8_average]
  norm_num [ModifyP, CalculatePNew, exBusy8, exBusy, exDiscInit, exDisc, pktE]

/-- The early-drop probability on an arrival of 500 bytes at `exBusy`:
`CalculatePNew` gives 3/16 and, with the wait flag set and only four packets
counted, `ModifyP` gives 0. -/
theorem exBusy_probability (item : QueueDiscItem) (now : ℚ) :
    ModifyP exBusy.m_mode
        (CalculatePNew (exBusy.updateAverage item now).m_qAvg exBusy.m_maxTh exBusy.m_vA
          exBusy.m_vB exBusy.m_curMaxP)
        ((exBusy.m_count + 1) % 2 ^ 32) ((exBusy.m_countBytes + pktE.size) % 2 ^ 32)
        exBusy.m_meanPktSize exBusy.m_isWait pktE.size = 0 := by
  rw [exBusy_average]
  norm_num [ModifyP, CalculatePNew, exBusy, exDiscInit, exDisc, pktE]

/-- C18 (witness): `pktE` arrives between the thresholds, position 1 holds a
packet of another flow, ECN is off. At `exBusy8` the probability is 3/8 and
`u = 1/4` drops the packet with `UNFORCED_DROP`; at `exBusy` the probability
is 0 and `u = 1/2` lets it through to the store. -/
theorem DoEnqueue_unforced_drop_witness :
    (∃ s' : ChokeQueueDisc, exBusy8.DoEnqueue pktE 1 1 (1 / 4) = some (false, s') ∧
        s'.internalQueue = exBusy8.internalQueue ∧
        s'.notifications =
          exBusy8.notifications ++ [Notification.dropBeforeEnqueue pktE Reason.UNFORCED_DROP] ∧
        s'.m_count = 0 ∧ s'.m_countBytes = 0) ∧
      (∃ s' : ChokeQueueDisc,
        exBusy.DoEnqueue pktE 1 1 (1 / 2) = some ((exBusy.internalQueue.Enqueue pktE).1, s') ∧
        s'.internalQueue = (exBusy.internalQueue.Enqueue pktE).2 ∧
        s'.notifications = exBusy.notifications ∧
        s'.m_count = (exBusy.m_count + 1) % 2 ^ 32 ∧
        s'.m_countBytes = (exBusy.m_countBytes + pktE.size) % 2 ^ 32) :=
  ⟨(DoEnqueue_unforced_drop exBusy8 pktE 1 1 (1 / 4) pktB
      (by rw [exBusy8_average]; norm_num [exBusy8, exBusy, exDiscInit, exDisc])
      (by rw [exBusy8_average]; norm_num [exBusy8, exBusy, exDiscInit, exDisc])
      (by decide) (by decide) (by decide) rfl rfl).1
      (by rw [exBusy8_probability]; norm_num),
    (DoEnqueue_unforced_drop exBusy pktE 1 1 (1 / 2) pktB
      (by rw [exBusy_average]; norm_num [exBusy, exDiscInit, exDisc])
      (by rw [exBusy_average]; norm_num [exBusy, exDiscInit, exDisc])
      (by decide) (by decide) (by decide) rfl rfl).2
      (by rw [exBusy_probability]; norm_num)⟩

/-- When the engine samples and finds no packet at the sampled position,
`DoEnqueue` has no result. -/
theorem DoEnqueue_of_miss (s : ChokeQueueDisc) (item : QueueDiscItem) (now : ℚ)
    (randompos : Nat) (u : ℚ)
    (hmin : (s.updateAverage item now).m_qAvg ≥ s.m_minTh) (hn : s.nQueued > 1)
    (hpeek : s.internalQueue.PeekAt randompos = none) :
    s.DoEnqueue item now randompos u = none := by
  obtain ⟨hQ, _, _, _, _, hmin', _⟩ := updateAverage_frame s item now
  unfold ChokeQueueDisc.DoEnqueue
  simp only [hmin', hmin, hn, and_self, if_true, hQ, hpeek]

/-- When the engine does not sample (average below `minTh`, or at most one
unit queued), `DoEnqueue` resets `m_vProb` and `m_old` and hands the packet
to the store. -/
theorem DoEnqueue_of_below (s : ChokeQueueDisc) (item : QueueDiscItem) (now : ℚ)
    (randompos : Nat) (u : ℚ)
    (h : ¬ ((s.updateAverage item now).m_qAvg ≥ s.m_minTh ∧ s.nQueued > 1)) :
    s.DoEnqueue item now randompos u =
      some ((s.internalQueue.Enqueue item).1,
        { (s.updateAverage item now) with
          m_vProb := 0
          m_old := false
          internalQueue := (s.internalQueue.Enqueue item).2 }) := by
  obtain ⟨hQ, _, _, _, _, hmin', _⟩ := updateAverage_frame s item now
  unfold ChokeQueueDisc.DoEnqueue
  simp only [hmin', h, if_false, ChokeQueueDisc.applyDisposition, hQ]

/-- Applying a disposition never touches `m_old` or the count of draws from
`m_uv`. -/
theorem applyDisposition_frame (s : ChokeQueueDisc) (item : QueueDiscItem) (d : DropType) :
    (ChokeQueueDisc.applyDisposition s item d).2.m_old = s.m_old ∧
      (ChokeQueueDisc.applyDisposition s item d).2.uvDraws = s.uvDraws := by
  unfold ChokeQueueDisc.applyDisposition ChokeQueueDisc.Mark ChokeQueueDisc.DropBeforeEnqueue
  cases d <;> cases hH : s.m_useHardDrop <;> cases hE : s.m_useEcn <;>
    cases hM : item.markable <;> cases hC : s.m_isNs1Compat <;> simp [hH, hE, hM, hC]

/-- The forced disposition emits exactly one notification, with reason
`FORCED_DROP` or `FORCED_MARK`. -/
theorem applyDisposition_forced_notifications (s : ChokeQueueDisc) (item : QueueDiscItem) :
    (ChokeQueueDisc.applyDisposition s item DropType.DTYPE_FORCED).2.notifications =
        s.notifications ++ [Notification.dropBeforeEnqueue item Reason.FORCED_DROP] ∨
      (ChokeQueueDisc.applyDisposition s item DropType.DTYPE_FORCED).2.notifications =
        s.notifications ++ [Notification.mark item Reason.FORCED_MARK] := by
  unfold ChokeQueueDisc.applyDisposition ChokeQueueDisc.Mark ChokeQueueDisc.DropBeforeEnqueue
  cases hH : s.m_useHardDrop <;> cases hE : s.m_useEcn <;>
    cases hM : item.markable <;> cases hC : s.m_isNs1Compat <;> simp [hH, hE, hM, hC]

/-- Function `DropEarly` never touches `m_old`. -/
theorem DropEarly_old (s : ChokeQueueDisc) (item : QueueDiscItem) (n : Nat) (u : ℚ) :
    (ChokeQueueDisc.DropEarly s item n u).2.m_old = s.m_old := by
  unfold ChokeQueueDisc.DropEarly
  simp only
  split_ifs <;> rfl

/-- An arrival that finds `m_old` clear draws no `u` and is given no unforced
disposition: whatever single notification it adds, it is neither an
`UNFORCED_DROP` nor an `UNFORCED_MARK`. -/
theorem DoEnqueue_old_clear (t : ChokeQueueDisc) (item : QueueDiscItem) (now : ℚ)
    (randompos : Nat) (u : ℚ) (b : Bool) (t' : ChokeQueueDisc) (hold : t.m_old = false)
    (h : t.DoEnqueue item now randompos u = some (b, t')) :
    t'.uvDraws = t.uvDraws ∧
      ∀ n : Notification, t'.notifications = t.notifications ++ [n] →
        n ≠ Notification.dropBeforeEnqueue item Reason.UNFORCED_DROP ∧
        n ≠ Notification.mark item Reason.UNFORCED_MARK := by
  obtain ⟨_, hN, _, hU, _, _, _⟩ := updateAverage_frame t item now
  by_cases hs : (t.updateAverage item now).m_qAvg ≥ t.m_minTh ∧ t.nQueued > 1
  · obtain ⟨hmin, hn⟩ := hs
    cases hpeek : t.internalQueue.PeekAt randompos with
    | none =>
      rw [DoEnqueue_of_miss t item now randompos u hmin hn hpeek] at h
      exact Option.noConfusion h
    | some randomitem =>
      by_cases hkey : item.classify = randomitem.classify
      · rw [DoEnqueue_of_match t item now randompos u randomitem hmin hn hpeek hkey] at h
        simp only [Option.some.injEq, Prod.mk.injEq] at h
        obtain ⟨_, ht⟩ := h
        subst ht
        refine ⟨hU, ?_⟩
        intro n hn'
        have : n = Notification.dropBeforeEnqueue item Reason.FORCED_MARK := by
          have := List.append_cancel_left hn'
          simpa using this.symm
        subst this
        exact ⟨by simp, by simp⟩
      · by_cases hmax : (t.updateAverage item now).m_qAvg ≥ t.m_maxTh
        · rw [DoEnqueue_of_forced t item now randompos u randomitem hmin hmax hn hpeek hkey] at h
          simp only [Option.some.injEq] at h
          have hfr := applyDisposition_frame
            { (t.updateAverage item now) with rndDraws := t.rndDraws + 1 } item
            DropType.DTYPE_FORCED
          have hno := applyDisposition_forced_notifications
            { (t.updateAverage item now) with rndDraws := t.rndDraws + 1 } item
          rw [h] at hfr hno
          refine ⟨by rw [hfr.2]; exact hU, ?_⟩
          intro n hn'
          simp only [hN] at hno
          rcases hno with hno | hno
          · rw [hno] at hn'
            have := List.append_cancel_left hn'
            simp only [List.cons.injEq, and_true] at this
            subst this
            exact ⟨by simp, by simp⟩
          · rw [hno] at hn'
            have := List.append_cancel_left hn'
            simp only [List.cons.injEq, and_true] at this
            subst this
            exact ⟨by simp, by simp⟩
        · rw [DoEnqueue_of_first t item now randompos u randomitem hmin (not_le.mp hmax) hn
            hpeek hkey hold] at h
          simp only [Option.some.injEq, Prod.mk.injEq] at h
          obtain ⟨_, ht⟩ := h
          subst ht
          refine ⟨hU, ?_⟩
          intro n hn'
          simp only [hN] at hn'
          exact absurd (List.self_eq_append_right.mp hn') (by simp)
  · rw [DoEnqueue_of_below t item now randompos u hs] at h
    simp only [Option.some.injEq, Prod.mk.injEq] at h
    obtain ⟨_, ht⟩ := h
    subst ht
    refine ⟨hU, ?_⟩
    intro n hn'
    simp only [hN] at hn'
    exact absurd (List.self_eq_append_right.mp hn') (by simp)

/-- While the engine keeps sampling, an arrival that finds `m_old` set leaves
it set. -/
theorem DoEnqueue_old_kept (t : ChokeQueueDisc) (item : QueueDiscItem) (now : ℚ)
    (randompos : Nat) (u : ℚ) (b : Bool) (t' : ChokeQueueDisc) (hold : t.m_old = true)
    (hmin : (t.updateAverage item now).m_qAvg ≥ t.m_minTh) (hn : t.nQueued > 1)
    (h : t.DoEnqueue item now randompos u = some (b, t')) :
    t'.m_old = true := by
  obtain ⟨_, _, _, _, hO, _⟩ := updateAverage_frame t item now
  cases hpeek : t.internalQueue.PeekAt randompos with
  | none =>
    rw [DoEnqueue_of_miss t item now randompos u hmin hn hpeek] at h
    exact Option.noConfusion h
  | some randomitem =>
    by_cases hkey : item.classify = randomitem.classify
    · rw [DoEnqueue_of_match t item now randompos u randomitem hmin hn hpeek hkey] at h
      simp only [Option.some.injEq, Prod.mk.injEq] at h
      obtain ⟨_, ht⟩ := h
      subst ht
      exact hO.trans hold
    · by_cases hmax : (t.updateAverage item now).m_qAvg ≥ t.m_maxTh
      · rw [DoEnqueue_of_forced t item now randompos u randomitem hmin hmax hn hpeek hkey] at h
        simp only [Option.some.injEq] at h
        have hfr := applyDisposition_frame
          { (t.updateAverage item now) with rndDraws := t.rndDraws + 1 } item
          DropType.DTYPE_FORCED
        rw [h] at hfr
        rw [hfr.1]
        exact hO.trans hold
      · rw [DoEnqueue_of_early t item now randompos u randomitem hmin (not_le.mp hmax) hn
          hpeek hkey hold] at h
        simp only [Option.some.injEq] at h
        have hde := DropEarly_old
          { (t.updateAverage item now) with rndDraws := t.rndDraws + 1 } item t.nQueued u
        split_ifs at h
        · have hfr := applyDisposition_frame (ChokeQueueDisc.DropEarly
            { (t.updateAverage item now) with rndDraws := t.rndDraws + 1 } item t.nQueued u).2
            item DropType.DTYPE_UNFORCED
          rw [h] at hfr
          rw [hfr.1, hde]
          exact hO.trans hold
        · have hfr := applyDisposition_frame (ChokeQueueDisc.DropEarly
            { (t.updateAverage item now) with rndDraws := t.rndDraws + 1 } item t.nQueued u).2
            item DropType.DTYPE_NONE
          rw [h] at hfr
          rw [hfr.1, hde]
          exact hO.trans hold

/-- C19: on an arrival with `minTh ≤` updated average `< maxTh`,
`nQueued > 1`, a sampled packet of another flow and `m_old` clear on entry,
the packet gets no unforced drop or mark and no `u` is drawn (the result is
the same for every `u`); it is handed to the store, and afterwards `m_old` is
set, `m_count = 1` and `m_countBytes` is the size of the packet. Moreover,
for every arrival whatever: one that finds `m_old` clear draws no `u` and
emits neither `UNFORCED_DROP` nor `UNFORCED_MARK`, so an unforced drop needs
`m_old` set on entry; and while the engine keeps sampling, `m_old` once set
stays set, so it goes from clear to set once per crossing. -/
theorem DoEnqueue_first_cycle (s : ChokeQueueDisc) (item : QueueDiscItem) (now : ℚ)
    (randompos : Nat) (u : ℚ) (randomitem : QueueDiscItem)
    (hmin : (s.updateAverage item now).m_qAvg ≥ s.m_minTh)
    (hmax : (s.updateAverage item now).m_qAvg < s.m_maxTh) (hn : s.nQueued > 1)
    (hpeek : s.internalQueue.PeekAt randompos = some randomitem)
    (hkey : item.classify ≠ randomitem.classify) (hold : s.m_old = false) :
    (∃ s' : ChokeQueueDisc,
        s.DoEnqueue item now randompos u = some ((s.internalQueue.Enqueue item).1, s') ∧
        s'.internalQueue = (s.internalQueue.Enqueue item).2 ∧
        s'.notifications = s.notifications ∧ s'.uvDraws = s.uvDraws ∧
        s'.m_old = true ∧ s'.m_count = 1 ∧ s'.m_countBytes = item.size) ∧
      (∀ u2 : ℚ, s.DoEnqueue item now randompos u2 = s.DoEnqueue item now randompos u) ∧
      (∀ (t : ChokeQueueDisc) (it : QueueDiscItem) (nw : ℚ) (r : Nat) (v : ℚ) (b : Bool)
          (t' : ChokeQueueDisc), t.m_old = false → t.DoEnqueue it nw r v = some (b, t') →
        t'.uvDraws = t.uvDraws ∧
          ∀ n : Notification, t'.notifications = t.notifications ++ [n] →
            n ≠ Notification.dropBeforeEnqueue it Reason.UNFORCED_DROP ∧
            n ≠ Notification.mark it Reason.UNFORCED_MARK) ∧
      (∀ (t : ChokeQueueDisc) (it : QueueDiscItem) (nw : ℚ) (r : Nat) (v : ℚ) (b : Bool)
          (t' : ChokeQueueDisc), t.m_old = true →
        (t.updateAverage it nw).m_qAvg ≥ t.m_minTh → t.nQueued > 1 →
        t.DoEnqueue it nw r v = some (b, t') → t'.m_old = true) := by
  obtain ⟨_, hN, _, hU, _, _, _⟩ := updateAverage_frame s item now
  have hrun := DoEnqueue_of_first s item now randompos u randomitem hmin hmax hn hpeek hkey hold
  refine ⟨⟨_, hrun, rfl, hN, hU, rfl, rfl, rfl⟩, ?_, ?_, ?_⟩
  · intro u2
    rw [hrun, DoEnqueue_of_first s item now randompos u2 randomitem hmin hmax hn hpeek hkey hold]
  · intro t it nw r v b t' ho h
    exact DoEnqueue_old_clear t it nw r v b t' ho h
  · intro t it nw r v b t' ho h1 h2 h
    exact DoEnqueue_old_kept t it nw r v b t' ho h1 h2 h

/-- On an arrival at `exFresh` the average moves from 8 to 11/2. -/
theorem exFresh_average (item : QueueDiscItem) (now : ℚ) :
    (exFresh.updateAverage item now).m_qAvg = 11 / 2 := by
  norm_num [ChokeQueueDisc.updateAverage, ChokeQueueDisc.nQueued, ChokeQueueDisc.GetMode,
    DropFromQueue.GetNPackets, Estimator, exFresh, exBusy, exDiscInit, exDisc, exQueue]

/-- C19 (witness): `pktE` arrives at `exFresh`, between the thresholds, with
a packet of another flow at position 1 and `m_old` clear: it is enqueued and
the cycle starts with `m_count = 1`, `m_countBytes = 500`. -/
theorem DoEnqueue_first_cycle_witness :
    ∃ s' : ChokeQueueDisc,
      exFresh.DoEnqueue pktE 1 1 (1 / 2) = some ((exFresh.internalQueue.Enqueue pktE).1, s') ∧
      s'.internalQueue = (exFresh.internalQueue.Enqueue pktE).2 ∧
      s'.notifications = exFresh.notifications ∧ s'.uvDraws = exFresh.uvDraws ∧
      s'.m_old = true ∧ s'.m_count = 1 ∧ s'.m_countBytes = pktE.size :=
  (DoEnqueue_first_cycle exFresh pktE 1 1 (1 / 2) pktB
    (by rw [exFresh_average]; norm_num [exFresh, exBusy, exDiscInit, exDisc])
    (by rw [exFresh_average]; norm_num [exFresh, exBusy, exDiscInit, exDisc])
    (by decide) (by decide) (by decide) rfl).1

/-! ## Theorems: the queue limit and the sampled position -/

/-- C14 (the code at the failing input): a disc in packets mode with
`QueueLimit = 1` passes `CheckConfig` with a store of capacity 25 packets and
initialises; two packets arriving at time 0 are both accepted, after which
the occupancy in the configured unit is 2, above the configured limit 1. -/
theorem queueLimit_not_enforced :
    ChokeQueueDisc.CheckConfig (exDisc.SetQueueLimit 1) 0 1 [] (QueueSizeUnit.PACKETS, 25) =
        (true, [exSmallLimit.internalQueue]) ∧
      (exDisc.SetQueueLimit 1).InitializeParams = some exSmallLimit ∧
      exSmallLimit.DoEnqueue pktA 0 1 0 = some (true, exSmallLimit1) ∧
      exSmallLimit1.DoEnqueue pktB 0 1 0 = some (true, exSmallLimit2) ∧
      exSmallLimit2.GetMode = QueueDiscMode.QUEUE_DISC_MODE_PACKETS ∧
      exSmallLimit2.GetQueueSize = 2 ∧ exSmallLimit2.m_queueLimit = 1 := by
  refine ⟨by decide, ?_, ?_, ?_, rfl, by decide, rfl⟩
  · norm_num [ChokeQueueDisc.InitializeParams, ChokeQueueDisc.SetQueueLimit, exDisc,
      exDiscInit, exSmallLimit]
  · rw [DoEnqueue_of_below exSmallLimit pktA 0 1 0
      (fun h => absurd h.2 (by decide))]
    norm_num [ChokeQueueDisc.updateAverage, ChokeQueueDisc.nQueued, ChokeQueueDisc.GetMode,
      DropFromQueue.GetNPackets, DropFromQueue.Enqueue, DropFromQueue.DoEnqueue,
      DropFromQueue.«end», Estimator, exSmallLimit1, exSmallLimit, exDiscInit, exDisc, pktA]
  · rw [DoEnqueue_of_below exSmallLimit1 pktB 0 1 0
      (fun h => absurd h.2 (by decide))]
    norm_num [ChokeQueueDisc.updateAverage, ChokeQueueDisc.nQueued, ChokeQueueDisc.GetMode,
      DropFromQueue.GetNPackets, DropFromQueue.Enqueue, DropFromQueue.DoEnqueue,
      DropFromQueue.«end», Estimator, exSmallLimit2, exSmallLimit1, exSmallLimit, exDiscInit,
      exDisc, pktA, pktB]

/-- C16 (the code at the failing input): a disc in bytes mode initialises
and accepts `pktA` (500 bytes) at time 0. On the next arrival the occupancy
`nQueued` is 500 bytes, the average 250 is above `minTh = 4`, so the engine
samples a position between 1 and `nQueued - 1 = 499`; the store holds one
packet, so already position 1 is beyond its contents: `PeekAt (1)` finds
nothing and `DoEnqueue` has no result. -/
theorem sampled_position_beyond_store_in_bytes_mode :
    ({ exDisc with
        m_mode := QueueDiscMode.QUEUE_DISC_MODE_BYTES
        m_queueLimit := 25000
        internalQueue := exBytes.internalQueue } : ChokeQueueDisc).InitializeParams =
        some exBytes ∧
      exBytes.DoEnqueue pktA 0 1 0 = some (true, exBytes1) ∧
      exBytes1.GetMode = QueueDiscMode.QUEUE_DISC_MODE_BYTES ∧
      exBytes1.nQueued = 500 ∧
      (exBytes1.updateAverage pktE 0).m_qAvg = 250 ∧
      (exBytes1.updateAverage pktE 0).m_qAvg ≥ exBytes1.m_minTh ∧
      1 ≤ exBytes1.nQueued - 1 ∧
      exBytes1.internalQueue.GetNPackets = 1 ∧
      exBytes1.internalQueue.PeekAt 1 = none ∧
      exBytes1.DoEnqueue pktE 0 1 (1 / 2) = none := by
  have havg : (exBytes1.updateAverage pktE 0).m_qAvg = 250 := by
    norm_num [ChokeQueueDisc.updateAverage, ChokeQueueDisc.nQueued, ChokeQueueDisc.GetMode,
      DropFromQueue.GetNBytes, Estimator, exBytes1, exBytes, exDiscInit, exDisc, pktA]
  have hmin : (exBytes1.updateAverage pktE 0).m_qAvg ≥ exBytes1.m_minTh := by
    rw [havg]
    norm_num [exBytes1, exBytes, exDiscInit, exDisc]
  refine ⟨?_, ?_, rfl, by decide, havg, hmin, by decide, by decide, by decide, ?_⟩
  · norm_num [ChokeQueueDisc.InitializeParams, exDisc, exDiscInit, exBytes]
  · rw [DoEnqueue_of_below exBytes pktA 0 1 0 (fun h => absurd h.2 (by decide))]
    norm_num [ChokeQueueDisc.updateAverage, ChokeQueueDisc.nQueued, ChokeQueueDisc.GetMode,
      DropFromQueue.GetNBytes, DropFromQueue.Enqueue, DropFromQueue.DoEnqueue,
      DropFromQueue.«end», Estimator, exBytes1, exBytes, exDiscInit, exDisc, pktA]
  · exact DoEnqueue_of_miss exBytes1 pktE 0 1 (1 / 2) hmin (by decide) (by decide)

/-! ## Theorems: initial values and departures -/

/-- C21: for every configuration with `minTh ≤ maxTh`, `lInterm > 0` and
`meanPktSize > 0`, `InitializeParams` succeeds, and in the state it yields
`vA = 1/d` and `vB = -minTh/d` with `d = maxTh - minTh` if that is non-zero
and `d = 1` otherwise, `maxP = 1/lInterm`,
`ptc = linkBandwidth / (8 * meanPktSize)`, `qAvg = 0`, `count = 0`,
`countBytes = 0`, `old` is false and `idle` is true; none of the three
divisors is zero. -/
theorem InitializeParams_values (s : ChokeQueueDisc) (hth : s.m_minTh ≤ s.m_maxTh)
    (hl : 0 < s.m_lInterm) (hmean : 0 < s.m_meanPktSize) :
    ∃ s' : ChokeQueueDisc, s.InitializeParams = some s' ∧
      s'.m_vA = 1 / (if s.m_maxTh - s.m_minTh = 0 then 1 else s.m_maxTh - s.m_minTh) ∧
      s'.m_vB = -s.m_minTh / (if s.m_maxTh - s.m_minTh = 0 then 1 else s.m_maxTh - s.m_minTh) ∧
      s'.m_curMaxP = 1 / s.m_lInterm ∧
      s'.m_ptc = (s.m_linkBandwidth : ℚ) / (8 * (s.m_meanPktSize : ℚ)) ∧
      s'.m_qAvg = 0 ∧ s'.m_count = 0 ∧ s'.m_countBytes = 0 ∧
      s'.m_old = false ∧ s'.m_idle = true ∧
      (if s.m_maxTh - s.m_minTh = 0 then (1 : ℚ) else s.m_maxTh - s.m_minTh) ≠ 0 ∧
      s.m_lInterm ≠ 0 ∧ (8 * (s.m_meanPktSize : ℚ)) ≠ 0 := by
  have hm : (0 : ℚ) < (s.m_meanPktSize : ℚ) := Nat.cast_pos.mpr hmean
  have hinit : s.InitializeParams = some
      { s with
        m_ptc := (s.m_linkBandwidth : ℚ) / (8 * (s.m_meanPktSize : ℚ))
        m_qAvg := 0
        m_count := 0
        m_countBytes := 0
        m_old := false
        m_idle := true
        m_vA := 1 / (if s.m_maxTh - s.m_minTh = 0 then 1 else s.m_maxTh - s.m_minTh)
        m_curMaxP := 1 / s.m_lInterm
        m_vB := -s.m_minTh / (if s.m_maxTh - s.m_minTh = 0 then 1 else s.m_maxTh - s.m_minTh)
        m_idleTime := 0 } := by
    unfold ChokeQueueDisc.InitializeParams
    simp only [hth, if_true]
  refine ⟨_, hinit, rfl, rfl, rfl, rfl, rfl, rfl, rfl, rfl, rfl, ?_, hl.ne', by positivity⟩
  split_ifs with h
  · exact one_ne_zero
  · exact h

/-- C21 (witness): the example configuration (`minTh = 4`, `maxTh = 8`,
`lInterm = 2`, bandwidth 1.5 Mbit/s, mean packet size 500) initialises with
`vA = 1/4`, `vB = -1`, `maxP = 1/2`, `ptc = 375`. -/
theorem InitializeParams_values_witness :
    exDisc.InitializeParams = some exDiscInit ∧
      exDiscInit.m_vA = 1 / 4 ∧ exDiscInit.m_vB = -1 ∧ exDiscInit.m_curMaxP = 1 / 2 ∧
      exDiscInit.m_ptc = 375 ∧
      ∃ s' : ChokeQueueDisc, exDisc.InitializeParams = some s' ∧
        s'.m_qAvg = 0 ∧ s'.m_count = 0 ∧ s'.m_countBytes = 0 ∧
        s'.m_old = false ∧ s'.m_idle = true :=
  ⟨exDisc_InitializeParams, rfl, rfl, rfl, rfl,
    (InitializeParams_values exDisc (by norm_num [exDisc]) (by norm_num [exDisc])
      (by decide)).elim
      (fun s' h => ⟨s', h.1, h.2.2.2.2.2.1, h.2.2.2.2.2.2.1, h.2.2.2.2.2.2.2.1,
        h.2.2.2.2.2.2.2.2.1, h.2.2.2.2.2.2.2.2.2.1⟩)⟩

/-- Applying a disposition leaves the average, the weight, the idle flag and
the idle time as they are. -/
theorem applyDisposition_keeps (s : ChokeQueueDisc) (item : QueueDiscItem) (d : DropType) :
    (ChokeQueueDisc.applyDisposition s item d).2.m_qAvg = s.m_qAvg ∧
      (ChokeQueueDisc.applyDisposition s item d).2.m_qW = s.m_qW ∧
      (ChokeQueueDisc.applyDisposition s item d).2.m_idle = s.m_idle ∧
      (ChokeQueueDisc.applyDisposition s item d).2.m_idleTime = s.m_idleTime := by
  unfold ChokeQueueDisc.applyDisposition ChokeQueueDisc.Mark ChokeQueueDisc.DropBeforeEnqueue
  cases d <;> cases hH : s.m_useHardDrop <;> cases hE : s.m_useEcn <;>
    cases hM : item.markable <;> cases hC : s.m_isNs1Compat <;> simp [hH, hE, hM, hC]

/-- Applying a disposition either drops the packet (result false, store
untouched) or hands it to `Enqueue` of the store and returns its result. -/
theorem applyDisposition_store (s : ChokeQueueDisc) (item : QueueDiscItem) (d : DropType) :
    ((ChokeQueueDisc.applyDisposition s item d).1 = false ∧
        (ChokeQueueDisc.applyDisposition s item d).2.internalQueue = s.internalQueue) ∨
      ((ChokeQueueDisc.applyDisposition s item d).1 = (s.internalQueue.Enqueue item).1 ∧
        (ChokeQueueDisc.applyDisposition s item d).2.internalQueue =
          (s.internalQueue.Enqueue item).2) := by
  unfold ChokeQueueDisc.applyDisposition ChokeQueueDisc.Mark ChokeQueueDisc.DropBeforeEnqueue
  cases d <;> cases hH : s.m_useHardDrop <;> cases hE : s.m_useEcn <;>
    cases hM : item.markable <;> cases hC : s.m_isNs1Compat <;> simp [hH, hE, hM, hC]

/-- Function `DropEarly` leaves the average, the weight, the idle flag, the
idle time and the store as they are. -/
theorem DropEarly_keeps (s : ChokeQueueDisc) (item : QueueDiscItem) (n : Nat) (u : ℚ) :
    (ChokeQueueDisc.DropEarly s item n u).2.m_qAvg = s.m_qAvg ∧
      (ChokeQueueDisc.DropEarly s item n u).2.m_qW = s.m_qW ∧
      (ChokeQueueDisc.DropEarly s item n u).2.m_idle = s.m_idle ∧
      (ChokeQueueDisc.DropEarly s item n u).2.m_idleTime = s.m_idleTime ∧
      (ChokeQueueDisc.DropEarly s item n u).2.internalQueue = s.internalQueue := by
  unfold ChokeQueueDisc.DropEarly
  simp only
  split_ifs <;> exact ⟨rfl, rfl, rfl, rfl, rfl⟩

/-- The first part of `DoEnqueue` leaves the weight and the idle time as they
are. -/
theorem updateAverage_keeps (s : ChokeQueueDisc) (item : QueueDiscItem) (now : ℚ) :
    (s.updateAverage item now).m_qW = s.m_qW ∧
      (s.updateAverage item now).m_idleTime = s.m_idleTime := by
  unfold ChokeQueueDisc.updateAverage
  by_cases h : s.m_idle = true
  · simp [h]
  · simp [h]

/-- A rejected `Enqueue` leaves the packets of the store as they are. -/
theorem Enqueue_of_failure (q : DropFromQueue) (p : QueueDiscItem)
    (h : (q.Enqueue p).1 = false) : (q.Enqueue p).2.packets = q.packets := by
  unfold DropFromQueue.Enqueue DropFromQueue.DoEnqueue DropFromQueue.«end» at h ⊢
  simp only at h ⊢
  split_ifs at h ⊢ with hov
  rfl

/-- The two shapes of a result of `DoEnqueue`: the match-drop, or a
disposition applied to a state that has the store of the entry state, the
updated average and a cleared idle flag. -/
theorem DoEnqueue_shape (s : ChokeQueueDisc) (item : QueueDiscItem) (now : ℚ) (randompos : Nat)
    (u : ℚ) (b : Bool) (s' : ChokeQueueDisc)
    (h : s.DoEnqueue item now randompos u = some (b, s')) :
    (∃ randomitem : QueueDiscItem,
        (s.updateAverage item now).m_qAvg ≥ s.m_minTh ∧ s.nQueued > 1 ∧
        s.internalQueue.PeekAt randompos = some randomitem ∧
        item.classify = randomitem.classify ∧ b = false ∧
        s' = { (s.updateAverage item now) with
          rndDraws := s.rndDraws + 1
          notifications :=
            s.notifications ++ [Notification.dropBeforeEnqueue item Reason.FORCED_MARK]
          internalQueue := (s.internalQueue.RemoveFrom randompos).2 }) ∨
      (∃ (base : ChokeQueueDisc) (d : DropType),
        (b, s') = ChokeQueueDisc.applyDisposition base item d ∧
        base.internalQueue = s.internalQueue ∧
        base.m_qAvg = (s.updateAverage item now).m_qAvg ∧
        base.m_qW = s.m_qW ∧ base.m_idle = false ∧ base.m_idleTime = s.m_idleTime) := by
  obtain ⟨hQ, _, _, _, _, _, _, _, _, hI⟩ := updateAverage_frame s item now
  obtain ⟨hW, hT⟩ := updateAverage_keeps s item now
  by_cases hs : (s.updateAverage item now).m_qAvg ≥ s.m_minTh ∧ s.nQueued > 1
  · obtain ⟨hmin, hn⟩ := hs
    cases hpeek : s.internalQueue.PeekAt randompos with
    | none =>
      rw [DoEnqueue_of_miss s item now randompos u hmin hn hpeek] at h
      exact Option.noConfusion h
    | some randomitem =>
      by_cases hkey : item.classify = randomitem.classify
      · rw [DoEnqueue_of_match s item now randompos u randomitem hmin hn hpeek hkey] at h
        simp only [Option.some.injEq, Prod.mk.injEq] at h
        exact Or.inl ⟨randomitem, hmin, hn, rfl, hkey, h.1.symm, h.2.symm⟩
      · right
        by_cases hmax : (s.updateAverage item now).m_qAvg ≥ s.m_maxTh
        · rw [DoEnqueue_of_forced s item now randompos u randomitem hmin hmax hn hpeek hkey] at h
          simp only [Option.some.injEq] at h
          exact ⟨_, DropType.DTYPE_FORCED, h.symm, hQ, rfl, hW, hI, hT⟩
        · cases hold : s.m_old with
          | false =>
            have hrun := DoEnqueue_of_first s item now randompos u randomitem hmin
              (not_le.mp hmax) hn hpeek hkey hold
            rw [hrun] at h
            simp only [Option.some.injEq] at h
            refine ⟨{ (s.updateAverage item now) with
              rndDraws := s.rndDraws + 1
              m_count := 1
              m_countBytes := item.size
              m_old := true }, DropType.DTYPE_NONE, ?_, hQ, rfl, hW, hI, hT⟩
            rw [← h]
            simp only [ChokeQueueDisc.applyDisposition, hQ]
          | true =>
            rw [DoEnqueue_of_early s item now randompos u randomitem hmin (not_le.mp hmax) hn
              hpeek hkey hold] at h
            simp only [Option.some.injEq] at h
            obtain ⟨k1, k2, k3, k4, k5⟩ := DropEarly_keeps
              { (s.updateAverage item now) with rndDraws := s.rndDraws + 1 } item s.nQueued u
            split_ifs at h
            · exact ⟨_, DropType.DTYPE_UNFORCED, h.symm, k5.trans hQ, k1, k2.trans hW,
                k3.trans hI, k4.trans hT⟩
            · exact ⟨_, DropType.DTYPE_NONE, h.symm, k5.trans hQ, k1, k2.trans hW,
                k3.trans hI, k4.trans hT⟩
  · rw [DoEnqueue_of_below s item now randompos u hs] at h
    simp only [Option.some.injEq] at h
    refine Or.inr ⟨{ (s.updateAverage item now) with m_vProb := 0, m_old := false },
      DropType.DTYPE_NONE, ?_, hQ, rfl, hW, hI, hT⟩
    rw [← h]
    simp only [ChokeQueueDisc.applyDisposition, hQ]

/-- Function `DoDequeue` on an empty store returns none and changes nothing. -/
theorem DoDequeue_of_nil (s : ChokeQueueDisc) (now : ℚ) (h : s.internalQueue.packets = []) :
    s.DoDequeue now = (none, s) := by
  unfold ChokeQueueDisc.DoDequeue DropFromQueue.IsEmpty DropFromQueue.GetNPackets
  simp [h]

/-- Function `DoDequeue` on a non-empty store returns the head packet, keeps
the rest, and sets the idle flag and the idle time exactly when nothing is
left; everything else stays. -/
theorem DoDequeue_of_cons (s : ChokeQueueDisc) (now : ℚ) (p : QueueDiscItem)
    (rest : List QueueDiscItem) (h : s.internalQueue.packets = p :: rest) :
    s.DoDequeue now =
      (some p,
        if rest = [] then
          { s with
            m_idle := true
            m_idleTime := now
            internalQueue := { s.internalQueue with packets := rest } }
        else
          { s with
            m_idle := false
            internalQueue := { s.internalQueue with packets := rest } }) := by
  have hd := Dequeue_of_cons s.internalQueue p rest h
  unfold ChokeQueueDisc.DoDequeue DropFromQueue.IsEmpty DropFromQueue.GetNPackets
  simp only [h, List.length_cons, hd]
  cases rest with
  | nil => simp
  | cons a l => simp

/-- Function `DoEnqueue` has no result exactly when the engine samples and
finds no packet at the sampled position. -/
theorem DoEnqueue_eq_none_iff (s : ChokeQueueDisc) (item : QueueDiscItem) (now : ℚ)
    (randompos : Nat) (u : ℚ) :
    s.DoEnqueue item now randompos u = none ↔
      ((s.updateAverage item now).m_qAvg ≥ s.m_minTh ∧ s.nQueued > 1 ∧
        s.internalQueue.PeekAt randompos = none) := by
  constructor
  · intro h
    by_cases hs : (s.updateAverage item now).m_qAvg ≥ s.m_minTh ∧ s.nQueued > 1
    · obtain ⟨hmin, hn⟩ := hs
      refine ⟨hmin, hn, ?_⟩
      cases hpeek : s.internalQueue.PeekAt randompos with
      | none => rfl
      | some randomitem =>
        exfalso
        by_cases hkey : item.classify = randomitem.classify
        · rw [DoEnqueue_of_match s item now randompos u randomitem hmin hn hpeek hkey] at h
          exact Option.noConfusion h
        · by_cases hmax : (s.updateAverage item now).m_qAvg ≥ s.m_maxTh
          · rw [DoEnqueue_of_forced s item now randompos u randomitem hmin hmax hn hpeek
              hkey] at h
            exact Option.noConfusion h
          · cases hold : s.m_old with
            | false =>
              rw [DoEnqueue_of_first s item now randompos u randomitem hmin (not_le.mp hmax)
                hn hpeek hkey hold] at h
              exact Option.noConfusion h
            | true =>
              rw [DoEnqueue_of_early s item now randompos u randomitem hmin (not_le.mp hmax)
                hn hpeek hkey hold] at h
              exact Option.noConfusion h
    · rw [DoEnqueue_of_below s item now randompos u hs] at h
      exact Option.noConfusion h
  · rintro ⟨hmin, hn, hpeek⟩
    exact DoEnqueue_of_miss s item now randompos u hmin hn hpeek

/-- C22: `DoDequeue` on a non-empty store returns the head packet, and
afterwards the idle flag is set if and only if the store is now empty, the
idle time being set to the current time in exactly that case (and kept
otherwise); `DoDequeue` on an empty store returns none and leaves the whole
state (store, idle flag, idle time, average, counters) unchanged; every
`DoEnqueue` that returns leaves the idle flag clear, and `DoEnqueue` returns
unless the engine samples a position at which the store holds no packet. -/
theorem DoDequeue_bookkeeping (s : ChokeQueueDisc) (now : ℚ) :
    (∀ (p : QueueDiscItem) (rest : List QueueDiscItem), s.internalQueue.packets = p :: rest →
        (s.DoDequeue now).1 = some p ∧
        (s.DoDequeue now).2.internalQueue.packets = rest ∧
        ((s.DoDequeue now).2.m_idle = true ↔ (s.DoDequeue now).2.internalQueue.packets = []) ∧
        ((s.DoDequeue now).2.internalQueue.packets = [] →
          (s.DoDequeue now).2.m_idleTime = now) ∧
        ((s.DoDequeue now).2.internalQueue.packets ≠ [] →
          (s.DoDequeue now).2.m_idleTime = s.m_idleTime) ∧
        (s.DoDequeue now).2.m_qAvg = s.m_qAvg ∧
        (s.DoDequeue now).2.m_count = s.m_count ∧
        (s.DoDequeue now).2.m_countBytes = s.m_countBytes) ∧
      (s.internalQueue.packets = [] → s.DoDequeue now = (none, s)) ∧
      (∀ (item : QueueDiscItem) (nw : ℚ) (randompos : Nat) (u : ℚ) (b : Bool)
          (s' : ChokeQueueDisc),
        s.DoEnqueue item nw randompos u = some (b, s') → s'.m_idle = false) ∧
      (∀ (item : QueueDiscItem) (nw : ℚ) (randompos : Nat) (u : ℚ),
        s.DoEnqueue item nw randompos u = none ↔
          ((s.updateAverage item nw).m_qAvg ≥ s.m_minTh ∧ s.nQueued > 1 ∧
            s.internalQueue.PeekAt randompos = none)) := by
  refine ⟨?_, DoDequeue_of_nil s now, ?_, ?_⟩
  · intro p rest h
    rw [DoDequeue_of_cons s now p rest h]
    by_cases hr : rest = []
    · simp [hr]
    · simp [hr]
  · intro item nw randompos u b s' h
    rcases DoEnqueue_shape s item nw randompos u b s' h with
      ⟨_, _, _, _, _, _, hs'⟩ | ⟨base, d, hres, _, _, _, hI, _⟩
    · rw [hs']
      exact (updateAverage_frame s item nw).2.2.2.2.2.2.2.2.2
    · have hk := (applyDisposition_keeps base item d).2.2.1
      rw [← hres] at hk
      exact hk.trans hI
  · intro item nw randompos u
    exact DoEnqueue_eq_none_iff s item nw randompos u

/-- C22 (witness): the only packet of `exArrived` departs at time 1, which
empties the store, sets the idle flag and records the time; a departure from
the empty initial disc returns none and changes nothing. -/
theorem DoDequeue_bookkeeping_witness :
    (exArrived.DoDequeue 1).1 = some pktA ∧
      (exArrived.DoDequeue 1).2.internalQueue.packets = [] ∧
      ((exArrived.DoDequeue 1).2.m_idle = true ↔
        (exArrived.DoDequeue 1).2.internalQueue.packets = []) ∧
      exDiscInit.DoDequeue 1 = (none, exDiscInit) :=
  ⟨((DoDequeue_bookkeeping exArrived 1).1 pktA [] rfl).1,
    ((DoDequeue_bookkeeping exArrived 1).1 pktA [] rfl).2.1,
    ((DoDequeue_bookkeeping exArrived 1).1 pktA [] rfl).2.2.1,
    (DoDequeue_bookkeeping exDiscInit 1).2.1 rfl⟩

/-! ## Theorems: invariants of runs -/

/-- A property kept by every `DoEnqueue` that returns and by every
`DoDequeue` holds at the end of every run that starts with it. -/
theorem run_invariant (P : ChokeQueueDisc → Prop)
    (henq : ∀ (s : ChokeQueueDisc) (item : QueueDiscItem) (now : ℚ) (randompos : Nat) (u : ℚ)
      (b : Bool) (s' : ChokeQueueDisc),
      P s → s.DoEnqueue item now randompos u = some (b, s') → P s')
    (hdeq : ∀ (s : ChokeQueueDisc) (now : ℚ), P s → P (s.DoDequeue now).2)
    (evs : List Event) :
    ∀ s s' : ChokeQueueDisc, P s → run s evs = some s' → P s' := by
  induction evs with
  | nil =>
    intro s s' hP h
    simp only [run, Option.some.injEq] at h
    rw [← h]
    exact hP
  | cons ev evs ih =>
    intro s s' hP h
    cases ev with
    | arrival item now randompos u =>
      simp only [run] at h
      cases hres : s.DoEnqueue item now randompos u with
      | none =>
        rw [hres] at h
        exact Option.noConfusion h
      | some r =>
        rw [hres] at h
        exact ih r.2 s' (henq s item now randompos u r.1 r.2 hP hres) h
    | departure now =>
      simp only [run] at h
      exact ih _ s' (hdeq s now hP) h

/-- The estimator keeps a non-negative average non-negative when the weight
lies between 0 and 1. -/
theorem Estimator_nonneg (nQueued m : Nat) (qAvg qW : ℚ) (hq : 0 ≤ qAvg) (h0 : 0 ≤ qW)
    (h1 : qW ≤ 1) : 0 ≤ Estimator nQueued m qAvg qW := by
  unfold Estimator
  have hp : 0 ≤ (1 - qW) ^ m := pow_nonneg (by linarith) m
  have hn : (0 : ℚ) ≤ (nQueued : ℚ) := Nat.cast_nonneg nQueued
  simp only
  nlinarith [mul_nonneg hq hp, mul_nonneg h0 hn]

/-- Function `DoDequeue` leaves the average and the weight as they are. -/
theorem DoDequeue_keeps (s : ChokeQueueDisc) (now : ℚ) :
    (s.DoDequeue now).2.m_qAvg = s.m_qAvg ∧ (s.DoDequeue now).2.m_qW = s.m_qW := by
  cases hp : s.internalQueue.packets with
  | nil =>
    rw [DoDequeue_of_nil s now hp]
    exact ⟨rfl, rfl⟩
  | cons p rest =>
    rw [DoDequeue_of_cons s now p rest hp]
    by_cases hr : rest = []
    · simp [hr]
    · simp [hr]

/-- The run used in the examples: on the initialised example disc `pktA`
arrives at time 0 and departs at time 1. -/
theorem exRun :
    run exDiscInit [Event.arrival pktA 0 1 0, Event.departure 1] = some exDeparted := by
  have h1 : exDiscInit.DoEnqueue pktA 0 1 0 = some (true, exArrived) := by
    rw [DoEnqueue_of_below exDiscInit pktA 0 1 0 (fun h => absurd h.2 (by decide))]
    norm_num [ChokeQueueDisc.updateAverage, ChokeQueueDisc.nQueued, ChokeQueueDisc.GetMode,
      DropFromQueue.GetNPackets, DropFromQueue.Enqueue, DropFromQueue.DoEnqueue,
      DropFromQueue.«end», Estimator, exArrived, exDiscInit, exDisc, pktA]
  have h2 : exArrived.DoDequeue 1 = (some pktA, exDeparted) := by
    rw [DoDequeue_of_cons exArrived 1 pktA [] rfl]
    simp [exArrived, exDeparted, exDiscInit, exDisc]
  simp only [run, h1, h2]

/-- The state `InitializeParams` yields has average 0 and the idle flag set,
and keeps the weight and the internal queue of the configuration. -/
theorem InitializeParams_start {c s0 : ChokeQueueDisc} (h : c.InitializeParams = some s0) :
    s0.m_qAvg = 0 ∧ s0.m_qW = c.m_qW ∧ s0.m_idle = true ∧
      s0.internalQueue = c.internalQueue := by
  unfold ChokeQueueDisc.InitializeParams at h
  by_cases hle : c.m_minTh ≤ c.m_maxTh
  · simp only [hle, if_true, Option.some.injEq] at h
    rw [← h]
    exact ⟨rfl, rfl, rfl, rfl⟩
  · simp [hle] at h

/-- C23: for every configuration with a queue weight in (0,1), in every
state reached from the initialised state by a sequence of arrivals and
departures (any times, any random draws), the average `qAvg` is not
negative. -/
theorem qAvg_nonneg (c s0 s : ChokeQueueDisc) (evs : List Event)
    (hinit : c.InitializeParams = some s0) (hw0 : 0 < c.m_qW) (hw1 : c.m_qW < 1)
    (hrun : run s0 evs = some s) : 0 ≤ s.m_qAvg := by
  obtain ⟨hq0, hW0, _, _⟩ := InitializeParams_start hinit
  have hinv := run_invariant (fun t => 0 ≤ t.m_qAvg ∧ t.m_qW = c.m_qW) ?_ ?_ evs s0 s
    ⟨by rw [hq0], hW0⟩ hrun
  · exact hinv.1
  · intro t item now randompos u b t' hP h
    obtain ⟨hq, hW⟩ := hP
    have hupd : 0 ≤ (t.updateAverage item now).m_qAvg := by
      rw [updateAverage_qAvg]
      exact Estimator_nonneg _ _ _ _ hq (by rw [hW]; exact hw0.le) (by rw [hW]; exact hw1.le)
    rcases DoEnqueue_shape t item now randompos u b t' h with
      ⟨_, _, _, _, _, _, ht'⟩ | ⟨base, d, hres, _, hbq, hbw, _, _⟩
    · rw [ht']
      exact ⟨hupd, (updateAverage_keeps t item now).1.trans hW⟩
    · obtain ⟨k1, k2, _, _⟩ := applyDisposition_keeps base item d
      rw [← hres] at k1 k2
      exact ⟨by rw [k1, hbq]; exact hupd, by rw [k2, hbw]; exact hW⟩
  · intro t now hP
    obtain ⟨k1, k2⟩ := DoDequeue_keeps t now
    exact ⟨by rw [k1]; exact hP.1, by rw [k2]; exact hP.2⟩

/-- C23 (witness): after `pktA` has arrived at and departed from the
initialised example disc, whose weight is 1/2, the average is not negative. -/
theorem qAvg_nonneg_witness :
    exDisc.InitializeParams = some exDiscInit ∧
      run exDiscInit [Event.arrival pktA 0 1 0, Event.departure 1] = some exDeparted ∧
      0 ≤ exDeparted.m_qAvg :=
  ⟨exDisc_InitializeParams, exRun,
    qAvg_nonneg exDisc exDiscInit exDeparted [Event.arrival pktA 0 1 0, Event.departure 1]
      exDisc_InitializeParams (by norm_num [exDisc]) (by norm_num [exDisc]) exRun⟩

/-- C25: in every state reached from an initialisation on an empty store by
a sequence of `DoEnqueue` and `DoDequeue` calls, if the idle flag is set
then the store holds no packets. The store `CheckConfig` creates when none
is installed is empty. -/
theorem idle_implies_empty (c s0 s : ChokeQueueDisc) (evs : List Event)
    (hinit : c.InitializeParams = some s0) (hempty : c.internalQueue.packets = [])
    (hrun : run s0 evs = some s) :
    (s.m_idle = true → s.internalQueue.packets = []) ∧
      (∀ (nPacketFilters : Nat) (maxSize : QueueSizeUnit × Nat) (q : DropFromQueue),
        ChokeQueueDisc.CheckConfig c 0 nPacketFilters [] maxSize = (true, [q]) →
        q.packets = []) := by
  obtain ⟨_, _, _, hQ0⟩ := InitializeParams_start hinit
  constructor
  · refine run_invariant (fun t => t.m_idle = true → t.internalQueue.packets = []) ?_ ?_ evs
      s0 s (fun _ => by rw [hQ0]; exact hempty) hrun
    · intro t item now randompos u b t' _ h hidle
      rcases DoEnqueue_shape t item now randompos u b t' h with
        ⟨_, _, _, _, _, _, ht'⟩ | ⟨base, d, hres, _, _, _, hI, _⟩
      · rw [ht'] at hidle
        have hf : (t.updateAverage item now).m_idle = false :=
          (updateAverage_frame t item now).2.2.2.2.2.2.2.2.2
        have hidle2 : (t.updateAverage item now).m_idle = true := hidle
        rw [hf] at hidle2
        exact Bool.noConfusion hidle2
      · have hk := (applyDisposition_keeps base item d).2.2.1
        rw [← hres] at hk
        have hk2 : t'.m_idle = false := hk.trans hI
        rw [hk2] at hidle
        exact Bool.noConfusion hidle
    · intro t now hP hidle
      cases hp : t.internalQueue.packets with
      | nil =>
        rw [DoDequeue_of_nil t now hp]
        exact hp
      | cons p rest =>
        rw [DoDequeue_of_cons t now p rest hp] at hidle ⊢
        by_cases hr : rest = []
        · simp [hr]
        · simp [hr] at hidle
  · intro nPacketFilters maxSize q hcfg
    unfold ChokeQueueDisc.CheckConfig at hcfg
    by_cases hf : nPacketFilters < 1
    · simp [hf] at hcfg
    · simp only [gt_iff_lt, lt_self_iff_false, if_false, hf, List.length_nil, if_true,
        List.nil_append, List.length_singleton, ne_eq, not_true_eq_false, Prod.mk.injEq,
        true_and, List.cons.injEq, and_true] at hcfg
      rw [← hcfg]

/-- C25 (witness): after `pktA` has arrived and departed, the example disc is
idle and its store is empty. -/
theorem idle_implies_empty_witness :
    exDisc.InitializeParams = some exDiscInit ∧ exDisc.internalQueue.packets = [] ∧
      run exDiscInit [Event.arrival pktA 0 1 0, Event.departure 1] = some exDeparted ∧
      exDeparted.m_idle = true ∧ exDeparted.internalQueue.packets = [] :=
  ⟨exDisc_InitializeParams, rfl, exRun, rfl,
    (idle_implies_empty exDisc exDiscInit exDeparted
      [Event.arrival pktA 0 1 0, Event.departure 1] exDisc_InitializeParams rfl exRun).1 rfl⟩

/-! ## Theorems: the frame of an arrival on the store -/

/-- C24: for every state and arriving packet, whenever `DoEnqueue` returns:
it returns true if and only if the store afterwards is the previous store
with the packet appended at the tail; on a match-drop it returns false and
the store is the previous one with exactly the sampled packet removed (one
packet fewer); in every other case it either appends the packet and returns
true or returns false with the packets of the store unchanged (forced drop,
unforced drop, rejection by the store). So a queued packet leaves the store
during `DoEnqueue` only on a match-drop. `DoEnqueue` fails to return only
when the engine samples a position that holds no packet, which cannot happen
in packets mode for a position up to `nQueued - 1`. -/
theorem DoEnqueue_store_frame (s : ChokeQueueDisc) (item : QueueDiscItem) (now : ℚ)
    (randompos : Nat) (u : ℚ) :
    (∀ (b : Bool) (s' : ChokeQueueDisc), s.DoEnqueue item now randompos u = some (b, s') →
        (b = true ↔ s'.internalQueue.packets = s.internalQueue.packets ++ [item]) ∧
        ((∃ randomitem : QueueDiscItem,
            (s.updateAverage item now).m_qAvg ≥ s.m_minTh ∧ s.nQueued > 1 ∧
            s.internalQueue.PeekAt randompos = some randomitem ∧
            item.classify = randomitem.classify) →
          b = false ∧
          s'.internalQueue.packets = s.internalQueue.packets.eraseIdx randompos ∧
          s'.internalQueue.packets.length + 1 = s.internalQueue.packets.length) ∧
        ((¬ ∃ randomitem : QueueDiscItem,
            (s.updateAverage item now).m_qAvg ≥ s.m_minTh ∧ s.nQueued > 1 ∧
            s.internalQueue.PeekAt randompos = some randomitem ∧
            item.classify = randomitem.classify) →
          (b = true ∧ s'.internalQueue.packets = s.internalQueue.packets ++ [item]) ∨
          (b = false ∧ s'.internalQueue.packets = s.internalQueue.packets))) ∧
      (s.DoEnqueue item now randompos u = none ↔
        ((s.updateAverage item now).m_qAvg ≥ s.m_minTh ∧ s.nQueued > 1 ∧
          s.internalQueue.PeekAt randompos = none)) ∧
      (s.GetMode = QueueDiscMode.QUEUE_DISC_MODE_PACKETS → randompos ≤ s.nQueued - 1 →
        ∃ (b : Bool) (s' : ChokeQueueDisc), s.DoEnqueue item now randompos u = some (b, s')) := by
  have hmatch : ∀ (b : Bool) (s' : ChokeQueueDisc) (randomitem : QueueDiscItem),
      s.DoEnqueue item now randompos u = some (b, s') →
      (s.updateAverage item now).m_qAvg ≥ s.m_minTh → s.nQueued > 1 →
      s.internalQueue.PeekAt randompos = some randomitem →
      item.classify = randomitem.classify →
      b = false ∧ s'.internalQueue.packets = s.internalQueue.packets.eraseIdx randompos ∧
        s'.internalQueue.packets.length + 1 = s.internalQueue.packets.length := by
    intro b s' randomitem h hmin hn hpeek hkey
    rw [DoEnqueue_of_match s item now randompos u randomitem hmin hn hpeek hkey] at h
    simp only [Option.some.injEq, Prod.mk.injEq] at h
    obtain ⟨hb, hs'⟩ := h
    have hget : s.internalQueue.packets[randompos]? = some randomitem := by
      rw [← PeekAt_eq]
      exact hpeek
    have hlt : randompos < s.internalQueue.packets.length := by
      by_contra hge
      rw [List.getElem?_eq_none (not_lt.mp hge)] at hget
      exact Option.noConfusion hget
    have hrem := RemoveFrom_of_getElem s.internalQueue randompos randomitem hget
    have hpk : s'.internalQueue.packets = s.internalQueue.packets.eraseIdx randompos := by
      rw [← hs']
      simp only [hrem]
    refine ⟨hb.symm, hpk, ?_⟩
    rw [hpk, List.length_eraseIdx_of_lt hlt]
    omega
  have hother : ∀ (b : Bool) (s' : ChokeQueueDisc),
      s.DoEnqueue item now randompos u = some (b, s') →
      (¬ ∃ randomitem : QueueDiscItem,
        (s.updateAverage item now).m_qAvg ≥ s.m_minTh ∧ s.nQueued > 1 ∧
        s.internalQueue.PeekAt randompos = some randomitem ∧
        item.classify = randomitem.classify) →
      (b = true ∧ s'.internalQueue.packets = s.internalQueue.packets ++ [item]) ∨
        (b = false ∧ s'.internalQueue.packets = s.internalQueue.packets) := by
    intro b s' h hno
    rcases DoEnqueue_shape s item now randompos u b s' h with
      ⟨ri, h1, h2, h3, h4, _, _⟩ | ⟨base, d, hres, hbQ, _, _, _, _⟩
    · exact absurd ⟨ri, h1, h2, h3, h4⟩ hno
    · have hst := applyDisposition_store base item d
      rw [← hres, hbQ] at hst
      rcases hst with ⟨hb, hq⟩ | ⟨hb, hq⟩
      · exact Or.inr ⟨hb, by rw [hq]⟩
      · cases hok : (s.internalQueue.Enqueue item).1 with
        | true =>
          refine Or.inl ⟨hb.trans hok, ?_⟩
          have hq' : s'.internalQueue = (s.internalQueue.Enqueue item).2 := hq
          rw [hq', Enqueue_of_success s.internalQueue item hok]
        | false =>
          refine Or.inr ⟨hb.trans hok, ?_⟩
          have hq' : s'.internalQueue = (s.internalQueue.Enqueue item).2 := hq
          rw [hq']
          exact Enqueue_of_failure s.internalQueue item hok
  refine ⟨?_, DoEnqueue_eq_none_iff s item now randompos u, ?_⟩
  · intro b s' h
    refine ⟨?_, ?_, hother b s' h⟩
    · by_cases hm : ∃ randomitem : QueueDiscItem,
          (s.updateAverage item now).m_qAvg ≥ s.m_minTh ∧ s.nQueued > 1 ∧
          s.internalQueue.PeekAt randompos = some randomitem ∧
          item.classify = randomitem.classify
      · obtain ⟨ri, h1, h2, h3, h4⟩ := hm
        obtain ⟨hb, hp, hlen⟩ := hmatch b s' ri h h1 h2 h3 h4
        constructor
        · intro hbt
          rw [hb] at hbt
          exact Bool.noConfusion hbt
        · intro happ
          have := congrArg List.length happ
          simp only [List.length_append, List.length_singleton] at this
          omega
      · rcases hother b s' h hm with ⟨hb, hp⟩ | ⟨hb, hp⟩
        · exact ⟨fun _ => hp, fun _ => hb⟩
        · constructor
          · intro hbt
            rw [hb] at hbt
            exact Bool.noConfusion hbt
          · intro happ
            have := congrArg List.length (hp.symm.trans happ)
            simp only [List.length_append, List.length_singleton] at this
            omega
    · rintro ⟨ri, h1, h2, h3, h4⟩
      exact hmatch b s' ri h h1 h2 h3 h4
  · intro hmode hr
    cases hres : s.DoEnqueue item now randompos u with
    | some r => exact ⟨r.1, r.2, rfl⟩
    | none =>
      exfalso
      obtain ⟨_, hn, hpeek⟩ := (DoEnqueue_eq_none_iff s item now randompos u).mp hres
      have hnq : s.nQueued = s.internalQueue.packets.length := by
        unfold ChokeQueueDisc.nQueued
        rw [hmode]
        rfl
      rw [PeekAt_eq] at hpeek
      have hge := List.getElem?_eq_none_iff.mp hpeek
      omega

/-- C24 (witness): `pktD` arrives at `exBusy` and is match-dropped against
`pktB` at position 1: the result is false and the store loses exactly that
packet; the same arrival at `exLow` is not sampled and the frame gives one of
the two other outcomes. -/
theorem DoEnqueue_store_frame_witness :
    (∃ s' : ChokeQueueDisc, exBusy.DoEnqueue pktD 1 1 (1 / 2) = some (false, s') ∧
        s'.internalQueue.packets = exBusy.internalQueue.packets.eraseIdx 1 ∧
        s'.internalQueue.packets.length + 1 = exBusy.internalQueue.packets.length) ∧
      ∃ (b : Bool) (s' : ChokeQueueDisc), exLow.DoEnqueue pktD 1 1 (1 / 2) = some (b, s') :=
  have hq : (exBusy.updateAverage pktD 1).m_qAvg ≥ exBusy.m_minTh := by
    rw [exBusy_average]
    norm_num [exBusy, exDiscInit, exDisc]
  have hrun := DoEnqueue_of_match exBusy pktD 1 1 (1 / 2) pktB hq (by decide) (by decide)
    (by decide)
  ⟨⟨_, hrun,
      (((DoEnqueue_store_frame exBusy pktD 1 1 (1 / 2)).1 false _ hrun).2.1
        ⟨pktB, hq, by decide, by decide, by decide⟩).2⟩,
    (DoEnqueue_store_frame exLow pktD 1 1 (1 / 2)).2.2 rfl (by decide)⟩

end Choke
